import Mathlib

/-!
# simplegamed: user registry, sessions and the concurrent map

A shallow embedding of `src/simplegamed/{safemap,session,usermanager}.go`.

* Go's `(value, error)` results are pairs whose second component is an
  `Option Error` (`none` is the `nil` error); `(value, ok)` map lookups are
  `Option`s.
* Methods with a pointer receiver take the receiver's value and return the
  updated value (explicit state passing).
* `int64` values are integers kept in range by `wrapInt64` (two's complement
  wrap-around, as Go defines signed overflow).
* The registry is used sequentially here: locks are not modelled.
-/

namespace simplegamed

/-! ## Errors -/

/-- The package's sentinel errors, and `other` for an error value that is none
of them (the error of the random source). -/
inductive Error where
  | ErrDuplicateID
  | ErrUnknownID
  | ErrUnknownUID
  | ErrWrongPassword
  | ErrWrongSessionID
  | ErrUnknownAction
  | other (msg : String)
  deriving DecidableEq, Repr

open Error

/-! ## Machine integers -/

/-- Reduce an integer to the `int64` range `[-2^63, 2^63)`, two's complement. -/
def wrapInt64 (x : Int) : Int :=
  (x + 9223372036854775808) % 18446744073709551616 - 9223372036854775808

/-- Largest `int64`. -/
def maxInt64 : Int := 9223372036854775807

/-- Smallest `int64`. -/
def minInt64 : Int := -9223372036854775808

/-! ## safemap.go -/

/-- The map held by a `SafeMap`; a lookup gives `none` for an absent key. -/
structure SafeMap (K V : Type) where
  m : K → Option V

/-- Go `NewSafeMap`: the empty map. -/
def NewSafeMap {K V : Type} : SafeMap K V :=
  { m := fun _ => none }

/-- Go `SafeMap.get`: `value, ok := s.m[key]`, the pair as an `Option`. -/
def SafeMap.get {K V : Type} (s : SafeMap K V) (key : K) : Option V :=
  s.m key

/-- Go `SafeMap.set`: `s.m[key] = value`. -/
def SafeMap.set {K V : Type} [DecidableEq K] (s : SafeMap K V) (key : K) (value : V) :
    SafeMap K V :=
  { m := fun k => if k = key then some value else s.m k }

/-- Go `SafeMap.del`: `delete(s.m, key)`. The source takes a `string` key, the
instance `K = String` of this definition. -/
def SafeMap.del {K V : Type} [DecidableEq K] (s : SafeMap K V) (key : K) : SafeMap K V :=
  { m := fun k => if k = key then none else s.m k }

/-! ### The map with keys of any dynamic type

The field `m` is a `map[interface{}]interface{}`. `SafeMap K V` above is the
map restricted to keys of one type whose `==` is ordinary equality, which is
how the registry uses it (`string` keys in `role`, `int64` keys in `uid`).
Below, `get` and `set` are embedded once more with the key an `interface{}`
value of any dynamic type, where Go's `==` need not be reflexive and a key
need not be hashable. -/

/-- An `interface{}` key, by what the map can tell about it: a `string`, an
`int64`, a `float64` NaN (a value that is hashable but not equal to itself), or
a value of an unhashable type (a slice, a map or a function). -/
inductive Key where
  | str (s : String)
  | int64 (n : Int)
  | float64NaN
  | unhashable
  deriving DecidableEq, Repr

/-- Whether a map operation with this key runs; with an unhashable key it
stops with a run-time panic. -/
def Key.hashable : Key → Bool
  | Key.unhashable => false
  | _ => true

/-- Go's `==` on two interface values, as the map compares keys: equal dynamic
type and equal value; a NaN equals nothing. -/
def Key.eq : Key → Key → Bool
  | Key.str a, Key.str b => decide (a = b)
  | Key.int64 a, Key.int64 b => decide (a = b)
  | _, _ => false

/-- The entries of a `map[interface{}]interface{}`. -/
structure SafeMapAny (V : Type) where
  entries : List (Key × V)

/-- Go `NewSafeMap`, for keys of any dynamic type: no entries. -/
def NewSafeMapAny {V : Type} : SafeMapAny V :=
  { entries := [] }

/-- Go `SafeMap.get` with a key of any dynamic type: `none` is the run-time
panic on an unhashable key, `some r` is the pair `value, ok := s.m[key]` as an
`Option`, the entry being looked for with `==`. -/
def SafeMapAny.get {V : Type} (s : SafeMapAny V) (key : Key) : Option (Option V) :=
  if key.hashable then
    some ((s.entries.find? (fun e => Key.eq e.1 key)).map (fun e => e.2))
  else none

/-- Go `SafeMap.set` with a key of any dynamic type: `none` is the run-time
panic on an unhashable key; otherwise `s.m[key] = value` overwrites the entry
whose key is `==` to `key` or, when there is none, adds an entry. -/
def SafeMapAny.set {V : Type} (s : SafeMapAny V) (key : Key) (value : V) :
    Option (SafeMapAny V) :=
  if key.hashable then
    if s.entries.any (fun e => Key.eq e.1 key) then
      some { entries := s.entries.map (fun e => if Key.eq e.1 key then (e.1, value) else e) }
    else some { entries := s.entries ++ [(key, value)] }
  else none

/-! ## session.go -/

/-- A session: its id and its ping count (`int64`). -/
structure Session where
  SessionID : String
  PingCount : Int
  deriving DecidableEq, Repr

/-- Go `Session.increase`: `s.PingCount += int64(i)`. -/
def Session.increase (s : Session) (i : Int) : Session :=
  { s with PingCount := wrapInt64 (s.PingCount + wrapInt64 i) }

/-- Go `Session.reset`: `s.PingCount = 0`. -/
def Session.reset (s : Session) : Session :=
  { s with PingCount := 0 }

/-- Go `Session.checkSessionID`: false when the stored id differs from `sid`. -/
def Session.checkSessionID (s : Session) (sid : String) : Bool :=
  if s.SessionID ≠ sid then false else true

/-! ## usermanager.go -/

/-- The constant `ACTION_RESET`. -/
def ACTION_RESET : String := "reset"

/-- The constant `ACTION_PING`. -/
def ACTION_PING : String := "ping"

/-- Go `UserInfo`: password, numeric id and session. -/
structure UserInfo where
  password : String
  UID : Int
  Secure : Session
  deriving DecidableEq, Repr

/-- The zero value `Session{}`. -/
def Session.zero : Session :=
  { SessionID := "", PingCount := 0 }

/-- The zero value `UserInfo{}`. -/
def UserInfo.zero : UserInfo :=
  { password := "", UID := 0, Secure := Session.zero }

/-- Go `UserManager`: identifier index `role`, numeric-id index `uid`, counter `seq`. -/
structure UserManager where
  role : SafeMap String UserInfo
  uid : SafeMap Int String
  seq : Int

/-- Go `NewUserManager`: two empty maps, `seq` zero. -/
def NewUserManager : UserManager :=
  { role := NewSafeMap, uid := NewSafeMap, seq := 0 }

/-- Go `UserManager.getID`: the identifier stored for `uid`, or ErrUnknownUID. -/
def UserManager.getID (u : UserManager) (uid : Int) : String × Option Error :=
  match u.uid.get uid with
  | none => ("", some ErrUnknownUID)
  | some val => (val, none)

/-- Go `UserManager.getUserInfo`: the record stored for `id`, or ErrUnknownID. -/
def UserManager.getUserInfo (u : UserManager) (id : String) : UserInfo × Option Error :=
  match u.role.get id with
  | none => (UserInfo.zero, some ErrUnknownID)
  | some val => (val, none)

/-- The alphabet of `base64.StdEncoding`. -/
def encodeStd : List Char :=
  ['A', 'B', 'C', 'D', 'E', 'F', 'G', 'H', 'I', 'J', 'K', 'L', 'M',
   'N', 'O', 'P', 'Q', 'R', 'S', 'T', 'U', 'V', 'W', 'X', 'Y', 'Z',
   'a', 'b', 'c', 'd', 'e', 'f', 'g', 'h', 'i', 'j', 'k', 'l', 'm',
   'n', 'o', 'p', 'q', 'r', 's', 't', 'u', 'v', 'w', 'x', 'y', 'z',
   '0', '1', '2', '3', '4', '5', '6', '7', '8', '9', '+', '/']

/-- The character for the low six bits of `v`: `enc.encode[v & 0x3F]`. -/
def encodeSextet (v : Nat) : Char :=
  encodeStd.getD (v % 64) '='

/-- The Go library's `base64.StdEncoding.EncodeToString` on a byte list: three
bytes give four characters, a remainder of one or two bytes is padded with
`=`. -/
def encodeToChars : List (Fin 256) → List Char
  | [] => []
  | [b0] =>
    let val := b0.val * 65536
    [encodeSextet (val / 262144), encodeSextet (val / 4096), '=', '=']
  | [b0, b1] =>
    let val := b0.val * 65536 + b1.val * 256
    [encodeSextet (val / 262144), encodeSextet (val / 4096), encodeSextet (val / 64), '=']
  | b0 :: b1 :: b2 :: rest =>
    let val := b0.val * 65536 + b1.val * 256 + b2.val
    encodeSextet (val / 262144) :: encodeSextet (val / 4096) :: encodeSextet (val / 64) ::
      encodeSextet val :: encodeToChars rest

/-- The outcome of one `rand.Read(r)`: an error, or the buffer filled, byte
`i` of the buffer being `bytes i`. -/
inductive RandRead where
  | fail (msg : String)
  | fill (bytes : Nat → Fin 256)

/-- Go `newSecureID`: `length` random bytes, base64-encoded. -/
def newSecureID (length : Nat) (rnd : RandRead) : String × Option Error :=
  match rnd with
  | RandRead.fail msg => ("", some (Error.other msg))
  | RandRead.fill bytes => (String.mk (encodeToChars ((List.range length).map bytes)), none)

/-- Go `UserManager.Signup`: refuse a registered `id`, else increment `seq` and enter the
new record in both indices. -/
def UserManager.Signup (u : UserManager) (id pw : String) : UserManager × Option Error :=
  match (u.getUserInfo id).2 with
  | none => (u, some ErrDuplicateID)
  | some _ =>
    let seq := wrapInt64 (u.seq + 1)
    ({ role := u.role.set id { password := pw, UID := seq, Secure := Session.zero },
       uid := u.uid.set seq id,
       seq := seq }, none)

/-- Go `UserManager.Login`: check the record and the password, draw a token and store a
fresh session. -/
def UserManager.Login (u : UserManager) (id pw : String) (rnd : RandRead) :
    UserManager × UserInfo × Option Error :=
  match u.getUserInfo id with
  | (_, some err) => (u, UserInfo.zero, some err)
  | (info, none) =>
    if info.password ≠ pw then (u, UserInfo.zero, some ErrWrongPassword)
    else
      match newSecureID 16 rnd with
      | (_, some err) => (u, UserInfo.zero, some err)
      | (s, none) =>
        let info1 : UserInfo := { info with Secure := { SessionID := s, PingCount := 0 } }
        ({ u with role := u.role.set id info1 }, info1, none)

/-- Go `UserManager.Action`: resolve `uid`, check the token, then reset or ping the
counter and store the record. -/
def UserManager.Action (u : UserManager) (action : String) (uid : Int) (sid : String) :
    UserManager × Int × Option Error :=
  match u.getID uid with
  | (_, some err) => (u, 0, some err)
  | (id, none) =>
    match u.getUserInfo id with
    | (_, some err) => (u, 0, some err)
    | (info, none) =>
      if !info.Secure.checkSessionID sid then (u, 0, some ErrWrongSessionID)
      else if action = ACTION_RESET then
        let info1 : UserInfo := { info with Secure := info.Secure.reset }
        ({ u with role := u.role.set id info1 }, info1.Secure.PingCount, none)
      else if action = ACTION_PING then
        let info1 : UserInfo := { info with Secure := info.Secure.increase 1 }
        ({ u with role := u.role.set id info1 }, info1.Secure.PingCount, none)
      else (u, 0, some ErrUnknownAction)

/-! ## Histories of calls -/

/-- One call of the registry's public interface, with the outcome of the
random source for a `Login`. -/
inductive Call where
  | signup (id pw : String)
  | login (id pw : String) (rnd : RandRead)
  | action (action : String) (uid : Int) (sid : String)

/-- The registry after one call. -/
def step (u : UserManager) : Call → UserManager
  | Call.signup id pw => (u.Signup id pw).1
  | Call.login id pw rnd => (u.Login id pw rnd).1
  | Call.action a uid sid => (u.Action a uid sid).1

/-- The registry after a list of calls, first call first. -/
def exec (u : UserManager) : List Call → UserManager
  | [] => u
  | c :: cs => exec (step u c) cs

/-- A registry state reachable from `NewUserManager`. -/
def Reachable (u : UserManager) : Prop :=
  ∃ cs : List Call, exec NewUserManager cs = u

/-- The number of `Signup` calls of a history that return `nil`, the history
being run from `u`. -/
def okSignups (u : UserManager) : List Call → Nat
  | [] => 0
  | Call.signup id pw :: cs =>
    (if (u.Signup id pw).2 = none then 1 else 0) + okSignups (u.Signup id pw).1 cs
  | Call.login id pw rnd :: cs => okSignups (u.Login id pw rnd).1 cs
  | Call.action a uid sid :: cs => okSignups (u.Action a uid sid).1 cs

/-- Whether the call `c`, made in state `u`, is a `Login` of `id` that returns
a `nil` error. -/
def loginSucceeds (u : UserManager) (id : String) : Call → Bool
  | Call.login id1 pw rnd => decide (id1 = id) && decide ((u.Login id1 pw rnd).2.2 = none)
  | _ => false

/-- No call of the history, run from `u`, is a successful `Login` of `id`. -/
def noLoginOf (id : String) (u : UserManager) : List Call → Prop
  | [] => True
  | c :: cs => loginSucceeds u id c = false ∧ noLoginOf id (step u c) cs

/-- A family of pairwise different identifiers: `k` times the letter `a`. -/
def userName (k : Nat) : String :=
  String.mk (List.replicate k 'a')

/-- The history that signs up `userName 0`, ..., `userName (n - 1)` in turn. -/
def signupHistory (n : Nat) : List Call :=
  (List.range n).map (fun k => Call.signup (userName k) "pw")

/-- The history `Signup("alice", "pw")`, `Login("alice", "pw")` with sixteen
zero bytes from the random source, then `n` times
`Action("ping", 1, "AAAAAAAAAAAAAAAAAAAAAA==")`. -/
def pingHistory (n : Nat) : List Call :=
  Call.signup "alice" "pw" :: Call.login "alice" "pw" (RandRead.fill (fun _ => 0)) ::
    List.replicate n (Call.action "ping" 1 "AAAAAAAAAAAAAAAAAAAAAA==")

/-- The registry after `Signup("alice", "pw")` and a `Login("alice", "pw")`
that drew sixteen zero bytes: account 1 holds the token
`"AAAAAAAAAAAAAAAAAAAAAA=="`. -/
def aliceLoggedIn : UserManager :=
  exec NewUserManager (pingHistory 0)

/-- The registry after `pingHistory (2^63 - 1)`: account 1 has been pinged
`2^63 - 1` times since its Login. -/
def pingOverflowState : UserManager :=
  exec NewUserManager (pingHistory 9223372036854775807)

/-- The registry after `signupHistory (2^63 - 1)`: the names `userName 0`, ...,
`userName (2^63 - 2)` are registered. -/
def manySignups : UserManager :=
  exec NewUserManager (signupHistory 9223372036854775807)

/-- The registry after `signupHistory (2^63)`: one more Signup, of
`userName (2^63 - 1)`, than in `manySignups`. -/
def signupOverflowState : UserManager :=
  exec NewUserManager (signupHistory (9223372036854775807 + 1))

/-- The number of calls `Action("ping", ..)` in a history, successful or not. -/
def pingCalls : List Call → Nat
  | [] => 0
  | Call.action a _ _ :: cs => (if a = ACTION_PING then 1 else 0) + pingCalls cs
  | _ :: cs => pingCalls cs

/-- The registry after `pingHistory (2^63)`: account 1 has been pinged `2^63`
times since its Login. -/
def pingWrappedState : UserManager :=
  exec NewUserManager (pingHistory (9223372036854775807 + 1))

/-- The identifiers that have a record in the identifier index. -/
def registeredIds (u : UserManager) : Set String :=
  {id | ∃ info : UserInfo, u.role.get id = some info}

/-- The numeric ids found in the records of the identifier index. -/
def assignedUIDs (u : UserManager) : Set Int :=
  {n | ∃ (id : String) (info : UserInfo), u.role.get id = some info ∧ info.UID = n}

/-- The two indices agree and every record has its numeric id in `1..k`, `k`
being the value of the counter. -/
def Consistent (k : Nat) (u : UserManager) : Prop :=
  u.seq = (k : Int) ∧
  (∀ (n : Int) (id : String), u.uid.get n = some id ↔
    ∃ info : UserInfo, u.role.get id = some info ∧ info.UID = n) ∧
  (∀ (id : String) (info : UserInfo), u.role.get id = some info →
    1 ≤ info.UID ∧ info.UID ≤ (k : Int))

/-! ### Padded base64 as RFC 4648 words it

A second definition of the encoding, by bit groups, to compare with
`encodeToChars`, which follows the shifts of the Go library. -/

/-- The eight bits of a byte, most significant first, each 0 or 1. -/
def byteBits (b : Fin 256) : List Nat :=
  [b.val / 128 % 2, b.val / 64 % 2, b.val / 32 % 2, b.val / 16 % 2,
   b.val / 8 % 2, b.val / 4 % 2, b.val / 2 % 2, b.val % 2]

/-- The number written by a list of bits, most significant first. -/
def bitsValue (bits : List Nat) : Nat :=
  bits.foldl (fun acc b => 2 * acc + b) 0

/-- The bit string cut into groups of six bits, each read as a number; a last
group of fewer than six bits is filled up with zero bits on the right. -/
def sextets : List Nat → List Nat
  | [] => []
  | b0 :: b1 :: b2 :: b3 :: b4 :: b5 :: rest =>
    bitsValue [b0, b1, b2, b3, b4, b5] :: sextets rest
  | bits => [bitsValue ((bits ++ [0, 0, 0, 0, 0]).take 6)]

/-- Standard padded base64 (RFC 4648, section 4): the bytes as one bit string,
every group of six bits replaced by the character of the alphabet `encodeStd`
with that index, then `=` appended until the length is a multiple of four. -/
def base64Standard (bs : List (Fin 256)) : List Char :=
  (sextets (bs.map byteBits).flatten).map (fun v => encodeStd.getD v '=') ++
    List.replicate ((4 - (sextets (bs.map byteBits).flatten).length % 4) % 4) '='

/-! ## Basic facts about the map and the three operations -/

theorem SafeMap.get_set_self {K V : Type} [DecidableEq K] (s : SafeMap K V) (k : K) (v : V) :
    (s.set k v).get k = some v := by
  simp [SafeMap.get, SafeMap.set]

theorem SafeMap.get_set_ne {K V : Type} [DecidableEq K] (s : SafeMap K V) (k k1 : K) (v : V)
    (h : k1 ≠ k) : (s.set k v).get k1 = s.get k1 := by
  simp [SafeMap.get, SafeMap.set, h]

theorem SafeMap.get_set {K V : Type} [DecidableEq K] (s : SafeMap K V) (k k1 : K) (v : V) :
    (s.set k v).get k1 = if k1 = k then some v else s.get k1 := by
  simp [SafeMap.get, SafeMap.set]

theorem Signup_of_absent (u : UserManager) (id pw : String) (h : u.role.get id = none) :
    u.Signup id pw =
      ({ role := u.role.set id
            { password := pw, UID := wrapInt64 (u.seq + 1), Secure := Session.zero },
         uid := u.uid.set (wrapInt64 (u.seq + 1)) id,
         seq := wrapInt64 (u.seq + 1) }, none) := by
  simp [UserManager.Signup, UserManager.getUserInfo, h]

theorem Signup_of_present (u : UserManager) (id pw : String) (info : UserInfo)
    (h : u.role.get id = some info) : u.Signup id pw = (u, some ErrDuplicateID) := by
  simp [UserManager.Signup, UserManager.getUserInfo, h]

theorem Signup_ok_iff (u : UserManager) (id pw : String) :
    (u.Signup id pw).2 = none ↔ u.role.get id = none := by
  cases h : u.role.get id with
  | none => simp [Signup_of_absent u id pw h]
  | some info => simp [Signup_of_present u id pw info h]

theorem Login_of_absent (u : UserManager) (id pw : String) (rnd : RandRead)
    (h : u.role.get id = none) : u.Login id pw rnd = (u, UserInfo.zero, some ErrUnknownID) := by
  simp [UserManager.Login, UserManager.getUserInfo, h]

theorem Login_of_wrong_password (u : UserManager) (id pw : String) (rnd : RandRead)
    (info : UserInfo) (h : u.role.get id = some info) (hpw : info.password ≠ pw) :
    u.Login id pw rnd = (u, UserInfo.zero, some ErrWrongPassword) := by
  simp [UserManager.Login, UserManager.getUserInfo, h, hpw]

theorem Login_of_rand_fail (u : UserManager) (id pw msg : String)
    (info : UserInfo) (h : u.role.get id = some info) (hpw : info.password = pw) :
    u.Login id pw (RandRead.fail msg) = (u, UserInfo.zero, some (Error.other msg)) := by
  simp [UserManager.Login, UserManager.getUserInfo, h, hpw, newSecureID]

theorem Login_of_rand_fill (u : UserManager) (id pw : String) (bytes : Nat → Fin 256)
    (info : UserInfo) (h : u.role.get id = some info) (hpw : info.password = pw) :
    u.Login id pw (RandRead.fill bytes) =
      ({ u with role := u.role.set id ({ info with Secure :=
            { SessionID := (newSecureID 16 (RandRead.fill bytes)).1, PingCount := 0 } }) },
        { info with Secure :=
            { SessionID := (newSecureID 16 (RandRead.fill bytes)).1, PingCount := 0 } },
        none) := by
  simp [UserManager.Login, UserManager.getUserInfo, h, hpw, newSecureID]

theorem Action_of_unknown_uid (u : UserManager) (action : String) (uid : Int) (sid : String)
    (h : u.uid.get uid = none) : u.Action action uid sid = (u, 0, some ErrUnknownUID) := by
  simp [UserManager.Action, UserManager.getID, h]

theorem Action_of_unknown_id (u : UserManager) (action : String) (uid : Int) (sid id : String)
    (h : u.uid.get uid = some id) (hr : u.role.get id = none) :
    u.Action action uid sid = (u, 0, some ErrUnknownID) := by
  simp [UserManager.Action, UserManager.getID, UserManager.getUserInfo, h, hr]

theorem Action_of_wrong_session (u : UserManager) (action : String) (uid : Int)
    (sid id : String) (info : UserInfo) (h : u.uid.get uid = some id)
    (hr : u.role.get id = some info) (hs : sid ≠ info.Secure.SessionID) :
    u.Action action uid sid = (u, 0, some ErrWrongSessionID) := by
  have hs1 : ¬ info.Secure.SessionID = sid := fun e => hs e.symm
  simp [UserManager.Action, UserManager.getID, UserManager.getUserInfo, h, hr,
    Session.checkSessionID, hs1]

theorem Action_reset (u : UserManager) (uid : Int) (id : String) (info : UserInfo)
    (h : u.uid.get uid = some id) (hr : u.role.get id = some info) :
    u.Action "reset" uid info.Secure.SessionID =
      ({ u with role := u.role.set id ({ info with Secure :=
            { SessionID := info.Secure.SessionID, PingCount := 0 } }) },
        0, none) := by
  simp [UserManager.Action, UserManager.getID, UserManager.getUserInfo, h, hr,
    Session.checkSessionID, ACTION_RESET, Session.reset]

theorem Action_ping (u : UserManager) (uid : Int) (id : String) (info : UserInfo)
    (h : u.uid.get uid = some id) (hr : u.role.get id = some info) :
    u.Action "ping" uid info.Secure.SessionID =
      ({ u with role := u.role.set id ({ info with Secure :=
            { SessionID := info.Secure.SessionID,
              PingCount := wrapInt64 (info.Secure.PingCount + 1) } }) },
        wrapInt64 (info.Secure.PingCount + 1), none) := by
  have h1 : wrapInt64 1 = 1 := by decide
  have hne : ¬ ("ping" : String) = "reset" := by decide
  simp [UserManager.Action, UserManager.getID, UserManager.getUserInfo, h, hr,
    Session.checkSessionID, ACTION_RESET, ACTION_PING, Session.increase, h1, hne]

theorem Action_of_unknown_action (u : UserManager) (action : String) (uid : Int)
    (id : String) (info : UserInfo) (h : u.uid.get uid = some id)
    (hr : u.role.get id = some info) (h1 : action ≠ "reset") (h2 : action ≠ "ping") :
    u.Action action uid info.Secure.SessionID = (u, 0, some ErrUnknownAction) := by
  simp [UserManager.Action, UserManager.getID, UserManager.getUserInfo, h, hr,
    Session.checkSessionID, ACTION_RESET, ACTION_PING, h1, h2]

theorem wrapInt64_range (x : Int) : minInt64 ≤ wrapInt64 x ∧ wrapInt64 x ≤ maxInt64 := by
  unfold wrapInt64 minInt64 maxInt64
  omega

theorem wrapInt64_of_range (x : Int) (h1 : minInt64 ≤ x) (h2 : x ≤ maxInt64) :
    wrapInt64 x = x := by
  unfold wrapInt64
  unfold minInt64 at h1
  unfold maxInt64 at h2
  omega

theorem wrapInt64_add_wrap (x y : Int) : wrapInt64 (wrapInt64 x + y) = wrapInt64 (x + y) := by
  unfold wrapInt64
  omega

/-- What a `Login` can do to the registry: nothing, or replace the session of
the record of `id`, whose password is `pw`. -/
theorem Login_cases (u : UserManager) (id pw : String) (rnd : RandRead) :
    ((u.Login id pw rnd).1 = u ∧ (u.Login id pw rnd).2.2 ≠ none) ∨
    ∃ (info : UserInfo) (bytes : Nat → Fin 256), rnd = RandRead.fill bytes ∧
      u.role.get id = some info ∧ info.password = pw ∧
      u.Login id pw rnd =
        ({ u with role := u.role.set id ({ info with Secure :=
              { SessionID := (newSecureID 16 (RandRead.fill bytes)).1, PingCount := 0 } }) },
          { info with Secure :=
              { SessionID := (newSecureID 16 (RandRead.fill bytes)).1, PingCount := 0 } },
          none) := by
  cases h : u.role.get id with
  | none => left; simp [Login_of_absent u id pw rnd h]
  | some info =>
    by_cases hpw : info.password = pw
    · cases rnd with
      | fail msg => left; simp [Login_of_rand_fail u id pw msg info h hpw]
      | fill bytes =>
        right
        exact ⟨info, bytes, rfl, rfl, hpw, Login_of_rand_fill u id pw bytes info h hpw⟩
    · left; simp [Login_of_wrong_password u id pw rnd info h hpw]

/-- What an `Action` can do to the registry: nothing, or replace the counter of
the record that `uid` leads to by an `int64`, the token given being that
record's token. -/
theorem Action_cases (u : UserManager) (action : String) (uid : Int) (sid : String) :
    ((u.Action action uid sid).1 = u ∧ (u.Action action uid sid).2.2 ≠ none) ∨
    ∃ (id : String) (info : UserInfo) (n : Int), u.uid.get uid = some id ∧
      u.role.get id = some info ∧ sid = info.Secure.SessionID ∧
      minInt64 ≤ n ∧ n ≤ maxInt64 ∧
      u.Action action uid sid =
        ({ u with role := u.role.set id ({ info with Secure :=
              { SessionID := info.Secure.SessionID, PingCount := n } }) }, n, none) := by
  cases h : u.uid.get uid with
  | none => left; simp [Action_of_unknown_uid u action uid sid h]
  | some id =>
    cases hr : u.role.get id with
    | none => left; simp [Action_of_unknown_id u action uid sid id h hr]
    | some info =>
      by_cases hs : sid = info.Secure.SessionID
      · subst hs
        by_cases h1 : action = "reset"
        · subst h1
          right
          exact ⟨id, info, 0, rfl, hr, rfl, by decide, by decide, Action_reset u uid id info h hr⟩
        · by_cases h2 : action = "ping"
          · subst h2
            right
            exact ⟨id, info, _, rfl, hr, rfl, (wrapInt64_range _).1, (wrapInt64_range _).2,
              Action_ping u uid id info h hr⟩
          · left; simp [Action_of_unknown_action u action uid id info h hr h1 h2]
      · left; simp [Action_of_wrong_session u action uid sid id info h hr hs]

theorem exec_append (u : UserManager) (cs ds : List Call) :
    exec u (cs ++ ds) = exec (exec u cs) ds := by
  induction cs generalizing u with
  | nil => rfl
  | cons c cs ih => exact ih (step u c)

theorem okSignups_append (u : UserManager) (cs ds : List Call) :
    okSignups u (cs ++ ds) = okSignups u cs + okSignups (exec u cs) ds := by
  induction cs generalizing u with
  | nil => simp [okSignups, exec]
  | cons c cs ih =>
    cases c with
    | signup id pw => simp [okSignups, exec, step, ih, Nat.add_assoc]
    | login id pw rnd => simp [okSignups, exec, step, ih]
    | action a uid sid => simp [okSignups, exec, step, ih]

/-- A property of the registry that every call preserves holds after every
history. -/
theorem exec_preserves (P : UserManager → Prop)
    (hstep : ∀ (u : UserManager) (c : Call), P u → P (step u c)) :
    ∀ (cs : List Call) (u : UserManager), P u → P (exec u cs) := by
  intro cs
  induction cs with
  | nil => intro u hu; exact hu
  | cons c cs ih => intro u hu; exact ih (step u c) (hstep u c hu)

theorem reachable_induct (P : UserManager → Prop) (h0 : P NewUserManager)
    (hstep : ∀ (u : UserManager) (c : Call), P u → P (step u c))
    (u : UserManager) (hu : Reachable u) : P u := by
  obtain ⟨cs, rfl⟩ := hu
  exact exec_preserves P hstep cs NewUserManager h0

theorem reachable_step (u : UserManager) (c : Call) (hu : Reachable u) :
    Reachable (step u c) := by
  obtain ⟨cs, rfl⟩ := hu
  exact ⟨cs ++ [c], by rw [exec_append]; rfl⟩

/-- Every counter stored in a reachable registry is an `int64`. -/
theorem reachable_pingCount_range (u : UserManager) (hu : Reachable u) :
    ∀ (id : String) (info : UserInfo), u.role.get id = some info →
      minInt64 ≤ info.Secure.PingCount ∧ info.Secure.PingCount ≤ maxInt64 := by
  refine reachable_induct (fun u => ∀ (id : String) (info : UserInfo),
    u.role.get id = some info →
      minInt64 ≤ info.Secure.PingCount ∧ info.Secure.PingCount ≤ maxInt64) ?_ ?_ u hu
  · intro id info h
    simp [NewUserManager, NewSafeMap, SafeMap.get] at h
  · intro u c ih id info h
    cases c with
    | signup id1 pw =>
      cases hr : u.role.get id1 with
      | none =>
        simp only [step, Signup_of_absent u id1 pw hr, SafeMap.get_set] at h
        split at h
        · cases h
          exact ⟨show minInt64 ≤ (0 : Int) by decide, show (0 : Int) ≤ maxInt64 by decide⟩
        · exact ih id info h
      | some info1 =>
        simp only [step, Signup_of_present u id1 pw info1 hr] at h
        exact ih id info h
    | login id1 pw rnd =>
      rcases Login_cases u id1 pw rnd with ⟨h1, _⟩ | ⟨info1, bytes, _, hr, _, h1⟩
      · simp only [step, h1] at h
        exact ih id info h
      · simp only [step, h1, SafeMap.get_set] at h
        split at h
        · cases h
          exact ⟨show minInt64 ≤ (0 : Int) by decide, show (0 : Int) ≤ maxInt64 by decide⟩
        · exact ih id info h
    | action a uid sid =>
      rcases Action_cases u a uid sid with ⟨h1, _⟩ | ⟨id1, info1, n, _, hr, _, hn1, hn2, h1⟩
      · simp only [step, h1] at h
        exact ih id info h
      · simp only [step, h1, SafeMap.get_set] at h
        split at h
        · cases h; exact ⟨hn1, hn2⟩
        · exact ih id info h

/-- After `n` pings with the current token the counter of the account is the
old counter plus `n`, reduced to `int64`; nothing else of the record moves. -/
theorem exec_pings (N : Int) (id : String) (n : Nat) :
    ∀ (u : UserManager) (info : UserInfo), u.uid.get N = some id →
      u.role.get id = some info →
      minInt64 ≤ info.Secure.PingCount → info.Secure.PingCount ≤ maxInt64 →
      (exec u (List.replicate n (Call.action "ping" N info.Secure.SessionID))).uid.get N
        = some id ∧
      (exec u (List.replicate n (Call.action "ping" N info.Secure.SessionID))).role.get id
        = some { info with Secure :=
            { SessionID := info.Secure.SessionID,
              PingCount := wrapInt64 (info.Secure.PingCount + (n : Int)) } } := by
  induction n with
  | zero =>
    intro u info hN hid h1 h2
    refine ⟨hN, ?_⟩
    simp only [List.replicate, exec, hid, Nat.cast_zero, add_zero]
    rw [wrapInt64_of_range _ h1 h2]
  | succ n ih =>
    intro u info hN hid h1 h2
    have hstep : step u (Call.action "ping" N info.Secure.SessionID) =
        { u with role := u.role.set id ({ info with Secure :=
            { SessionID := info.Secure.SessionID,
              PingCount := wrapInt64 (info.Secure.PingCount + 1) } }) } := by
      simp only [step, Action_ping u N id info hN hid]
    have h := ih (step u (Call.action "ping" N info.Secure.SessionID))
      { info with Secure :=
          { SessionID := info.Secure.SessionID,
            PingCount := wrapInt64 (info.Secure.PingCount + 1) } }
      (by rw [hstep]; exact hN)
      (by rw [hstep]; exact SafeMap.get_set_self _ _ _)
      (wrapInt64_range _).1 (wrapInt64_range _).2
    simp only [List.replicate, exec]
    refine ⟨h.1, ?_⟩
    rw [h.2, wrapInt64_add_wrap]
    simp only [Nat.cast_add, Nat.cast_one]
    congr 4
    omega

theorem exec_pingHistory (n : Nat) :
    exec NewUserManager (pingHistory n) =
      exec aliceLoggedIn (List.replicate n (Call.action "ping" 1 "AAAAAAAAAAAAAAAAAAAAAA==")) :=
  rfl

theorem aliceLoggedIn_uid : aliceLoggedIn.uid.get 1 = some "alice" := by
  decide

theorem aliceLoggedIn_role :
    aliceLoggedIn.role.get "alice" =
      some { password := "pw", UID := 1,
             Secure := { SessionID := "AAAAAAAAAAAAAAAAAAAAAA==", PingCount := 0 } } := by
  decide

/-- The state of account `alice` after `pingHistory n`. -/
theorem exec_pingHistory_state (n : Nat) :
    (exec NewUserManager (pingHistory n)).uid.get 1 = some "alice" ∧
    (exec NewUserManager (pingHistory n)).role.get "alice" =
      some { password := "pw", UID := 1,
             Secure := { SessionID := "AAAAAAAAAAAAAAAAAAAAAA==",
                         PingCount := wrapInt64 (n : Int) } } := by
  have h := exec_pings 1 "alice" n aliceLoggedIn _ aliceLoggedIn_uid aliceLoggedIn_role
    (by decide) (by decide)
  rw [exec_pingHistory]
  refine ⟨h.1, ?_⟩
  rw [h.2]
  simp

/-- No call removes a record or changes its password or numeric id, and only a
successful `Login` of `id` changes the token of `id`. -/
theorem step_record (u : UserManager) (c : Call) (id : String) (info : UserInfo)
    (h : u.role.get id = some info) :
    ∃ info1 : UserInfo, (step u c).role.get id = some info1 ∧
      info1.password = info.password ∧ info1.UID = info.UID ∧
      (loginSucceeds u id c = false → info1.Secure.SessionID = info.Secure.SessionID) := by
  cases c with
  | signup id1 pw =>
    cases hr : u.role.get id1 with
    | none =>
      have hne : id ≠ id1 := by
        intro e; rw [e, hr] at h; cases h
      refine ⟨info, ?_, rfl, rfl, fun _ => rfl⟩
      simp only [step, Signup_of_absent u id1 pw hr]
      rw [SafeMap.get_set_ne _ _ _ _ hne]; exact h
    | some info0 =>
      refine ⟨info, ?_, rfl, rfl, fun _ => rfl⟩
      simp only [step, Signup_of_present u id1 pw info0 hr]; exact h
  | login id1 pw rnd =>
    rcases Login_cases u id1 pw rnd with ⟨h1, _⟩ | ⟨info0, bytes, _, hr, _, h1⟩
    · refine ⟨info, ?_, rfl, rfl, fun _ => rfl⟩
      simp only [step, h1]; exact h
    · by_cases e : id = id1
      · subst e
        rw [h] at hr; cases hr
        refine ⟨{ info with Secure :=
          { SessionID := (newSecureID 16 (RandRead.fill bytes)).1, PingCount := 0 } },
          ?_, rfl, rfl, ?_⟩
        · simp only [step, h1]; exact SafeMap.get_set_self _ _ _
        · intro hf
          simp [loginSucceeds, h1] at hf
      · refine ⟨info, ?_, rfl, rfl, fun _ => rfl⟩
        simp only [step, h1]
        rw [SafeMap.get_set_ne _ _ _ _ e]; exact h
  | action a uid sid =>
    rcases Action_cases u a uid sid with ⟨h1, _⟩ | ⟨id1, info0, n, _, hr, _, _, _, h1⟩
    · refine ⟨info, ?_, rfl, rfl, fun _ => rfl⟩
      simp only [step, h1]; exact h
    · by_cases e : id = id1
      · subst e
        rw [h] at hr; cases hr
        refine ⟨{ info with Secure :=
          { SessionID := info.Secure.SessionID, PingCount := n } }, ?_, rfl, rfl, fun _ => rfl⟩
        simp only [step, h1]; exact SafeMap.get_set_self _ _ _
      · refine ⟨info, ?_, rfl, rfl, fun _ => rfl⟩
        simp only [step, h1]
        rw [SafeMap.get_set_ne _ _ _ _ e]; exact h

/-- The same over a whole history. -/
theorem exec_record (id : String) (cs : List Call) :
    ∀ (u : UserManager) (info : UserInfo), u.role.get id = some info →
      ∃ info1 : UserInfo, (exec u cs).role.get id = some info1 ∧
        info1.password = info.password ∧ info1.UID = info.UID ∧
        (noLoginOf id u cs → info1.Secure.SessionID = info.Secure.SessionID) := by
  induction cs with
  | nil => intro u info h; exact ⟨info, h, rfl, rfl, fun _ => rfl⟩
  | cons c cs ih =>
    intro u info h
    obtain ⟨info1, h1, hp1, hu1, hs1⟩ := step_record u c id info h
    obtain ⟨info2, h2, hp2, hu2, hs2⟩ := ih (step u c) info1 h1
    refine ⟨info2, h2, hp2.trans hp1, hu2.trans hu1, ?_⟩
    intro hno
    exact (hs2 hno.2).trans (hs1 hno.1)

/-! ## The sequence counter and the numeric-id index -/

theorem Login_seq_uid (u : UserManager) (id pw : String) (rnd : RandRead) :
    (u.Login id pw rnd).1.seq = u.seq ∧ (u.Login id pw rnd).1.uid = u.uid := by
  rcases Login_cases u id pw rnd with ⟨h1, _⟩ | ⟨info, bytes, _, _, _, h1⟩
  · rw [h1]; exact ⟨rfl, rfl⟩
  · rw [h1]; exact ⟨rfl, rfl⟩

theorem Action_seq_uid (u : UserManager) (action : String) (uid : Int) (sid : String) :
    (u.Action action uid sid).1.seq = u.seq ∧ (u.Action action uid sid).1.uid = u.uid := by
  rcases Action_cases u action uid sid with ⟨h1, _⟩ | ⟨id, info, n, _, _, _, _, _, h1⟩
  · rw [h1]; exact ⟨rfl, rfl⟩
  · rw [h1]; exact ⟨rfl, rfl⟩

theorem Signup_failed (u : UserManager) (id pw : String) (h : (u.Signup id pw).2 ≠ none) :
    u.Signup id pw = (u, some ErrDuplicateID) := by
  cases hr : u.role.get id with
  | none => exact absurd ((Signup_ok_iff u id pw).2 hr) h
  | some info => exact Signup_of_present u id pw info hr

/-- The counter after a history is the counter before it plus the number of
successful Signups, reduced to `int64`. -/
theorem exec_seq (cs : List Call) :
    ∀ (u : UserManager) (k : Int), u.seq = wrapInt64 k →
      (exec u cs).seq = wrapInt64 (k + (okSignups u cs : Int)) := by
  induction cs with
  | nil => intro u k h; simpa [exec, okSignups] using h
  | cons c cs ih =>
    intro u k h
    cases c with
    | signup id pw =>
      by_cases hok : (u.Signup id pw).2 = none
      · have hr := (Signup_ok_iff u id pw).1 hok
        have h1 : (u.Signup id pw).1.seq = wrapInt64 (k + 1) := by
          rw [Signup_of_absent u id pw hr]
          show wrapInt64 (u.seq + 1) = wrapInt64 (k + 1)
          rw [h, wrapInt64_add_wrap]
        have := ih (u.Signup id pw).1 (k + 1) h1
        simp only [exec, step, okSignups, hok, if_true, Nat.cast_add, Nat.cast_one]
        rw [this]; congr 1; omega
      · have h1 : (u.Signup id pw).1.seq = wrapInt64 k := by
          rw [Signup_failed u id pw hok]; exact h
        have := ih (u.Signup id pw).1 k h1
        simp only [exec, step, okSignups, hok, if_false, Nat.zero_add]
        exact this
    | login id pw rnd =>
      have := ih (u.Login id pw rnd).1 k (by rw [(Login_seq_uid u id pw rnd).1]; exact h)
      simpa [exec, step, okSignups] using this
    | action a uid sid =>
      have := ih (u.Action a uid sid).1 k (by rw [(Action_seq_uid u a uid sid).1]; exact h)
      simpa [exec, step, okSignups] using this

/-- While the number `k` of successful Signups stays below `2^63`, the counter
is `k` and the numeric-id index holds exactly the keys `1, ..., k`. -/
theorem exec_uid_domain (cs : List Call) :
    ∀ (u : UserManager) (k : Nat), u.seq = (k : Int) →
      (∀ n : Int, u.uid.get n ≠ none ↔ (1 ≤ n ∧ n ≤ (k : Int))) →
      ((k + okSignups u cs : Nat) : Int) ≤ maxInt64 →
      (exec u cs).seq = ((k + okSignups u cs : Nat) : Int) ∧
      (∀ n : Int, (exec u cs).uid.get n ≠ none ↔
        (1 ≤ n ∧ n ≤ ((k + okSignups u cs : Nat) : Int))) := by
  induction cs with
  | nil => intro u k h1 h2 _; exact ⟨by simpa [exec, okSignups] using h1,
      by simpa [exec, okSignups] using h2⟩
  | cons c cs ih =>
    intro u k h1 h2 hb
    cases c with
    | signup id pw =>
      by_cases hok : (u.Signup id pw).2 = none
      · have hr := (Signup_ok_iff u id pw).1 hok
        simp only [okSignups, hok, if_true] at hb
        have hw : wrapInt64 (u.seq + 1) = ((k + 1 : Nat) : Int) := by
          rw [h1]
          have : wrapInt64 ((k : Int) + 1) = (k : Int) + 1 := by
            apply wrapInt64_of_range
            · unfold minInt64; omega
            · unfold maxInt64 at *; omega
          rw [this]; simp
        have hs := Signup_of_absent u id pw hr
        have := ih (u.Signup id pw).1 (k + 1) (by rw [hs]; exact hw)
          (by
            intro n
            rw [hs]
            show (u.uid.set (wrapInt64 (u.seq + 1)) id).get n ≠ none ↔ _
            rw [SafeMap.get_set, hw]
            by_cases e : n = ((k + 1 : Nat) : Int)
            · simp only [e, if_true]
              constructor
              · intro _; constructor <;> push_cast <;> omega
              · intro _; simp
            · simp only [e, if_false, h2 n]
              push_cast at e ⊢
              omega)
          (by rw [show k + 1 + okSignups (u.Signup id pw).1 cs
                = k + (1 + okSignups (u.Signup id pw).1 cs) by omega]; exact hb)
        simp only [exec, step, okSignups, hok, if_true]
        rw [show k + (1 + okSignups (u.Signup id pw).1 cs)
              = k + 1 + okSignups (u.Signup id pw).1 cs by omega]
        exact this
      · have hs := Signup_failed u id pw hok
        simp only [okSignups, hok, if_false, Nat.zero_add] at hb
        have := ih (u.Signup id pw).1 k (by rw [hs]; exact h1) (by rw [hs]; exact h2) hb
        simp only [exec, step, okSignups, hok, if_false, Nat.zero_add]
        exact this
    | login id pw rnd =>
      have hl := Login_seq_uid u id pw rnd
      have := ih (u.Login id pw rnd).1 k (by rw [hl.1]; exact h1)
        (by rw [hl.2]; exact h2) (by simpa [okSignups] using hb)
      simpa [exec, step, okSignups] using this
    | action a uid sid =>
      have hl := Action_seq_uid u a uid sid
      have := ih (u.Action a uid sid).1 k (by rw [hl.1]; exact h1)
        (by rw [hl.2]; exact h2) (by simpa [okSignups] using hb)
      simpa [exec, step, okSignups] using this

/-- An `Action` fails with ErrUnknownUID exactly when the numeric-id index has no
entry for `uid`, and then returns 0 and the registry unchanged. -/
theorem Action_unknown_uid_iff (u : UserManager) (action : String) (uid : Int) (sid : String) :
    ((u.Action action uid sid).2.2 = some ErrUnknownUID ↔ u.uid.get uid = none) ∧
    ((u.Action action uid sid).2.2 = some ErrUnknownUID →
      u.Action action uid sid = (u, 0, some ErrUnknownUID)) := by
  cases h : u.uid.get uid with
  | none => simp [Action_of_unknown_uid u action uid sid h]
  | some id =>
    have hne : (u.Action action uid sid).2.2 ≠ some ErrUnknownUID := by
      cases hr : u.role.get id with
      | none => simp [Action_of_unknown_id u action uid sid id h hr]
      | some info =>
        by_cases hs : sid = info.Secure.SessionID
        · subst hs
          by_cases h1 : action = "reset"
          · subst h1; simp [Action_reset u uid id info h hr]
          · by_cases h2 : action = "ping"
            · subst h2; simp [Action_ping u uid id info h hr]
            · simp [Action_of_unknown_action u action uid id info h hr h1 h2]
        · simp [Action_of_wrong_session u action uid sid id info h hr hs]
    simp [hne]

theorem userName_injective (j k : Nat) (h : userName j = userName k) : j = k := by
  have h1 : List.replicate j 'a' = List.replicate k 'a' :=
    congrArg String.data h
  have h2 := congrArg List.length h1
  simpa using h2

theorem signupHistory_succ (n : Nat) :
    signupHistory (n + 1) = signupHistory n ++ [Call.signup (userName n) "pw"] := by
  simp [signupHistory, List.range_succ]

/-- After `signupHistory n`: `n` Signups have succeeded and only the names
`userName k` with `k < n` are registered. -/
theorem signupHistory_state (n : Nat) :
    okSignups NewUserManager (signupHistory n) = n ∧
    (∀ id : String, (exec NewUserManager (signupHistory n)).role.get id ≠ none →
      ∃ k : Nat, k < n ∧ id = userName k) := by
  induction n with
  | zero =>
    refine ⟨rfl, ?_⟩
    intro id h
    exact absurd rfl h
  | succ n ih =>
    have hfresh : (exec NewUserManager (signupHistory n)).role.get (userName n) = none := by
      by_contra hc
      obtain ⟨k, hk, e⟩ := ih.2 _ hc
      have := userName_injective _ _ e
      omega
    have hs := Signup_of_absent (exec NewUserManager (signupHistory n)) (userName n) "pw" hfresh
    constructor
    · rw [signupHistory_succ, okSignups_append, ih.1]
      simp [okSignups, hs]
    · intro id h
      rw [signupHistory_succ, exec_append] at h
      simp only [exec, step, hs, SafeMap.get_set] at h
      by_cases e : id = userName n
      · exact ⟨n, Nat.lt_succ_self n, e⟩
      · simp only [e, if_false] at h
        obtain ⟨k, hk, e1⟩ := ih.2 id h
        exact ⟨k, Nat.lt_succ_of_lt hk, e1⟩

theorem signupHistory_fresh (n : Nat) :
    (exec NewUserManager (signupHistory n)).role.get (userName n) = none := by
  by_contra hc
  obtain ⟨k, hk, e⟩ := (signupHistory_state n).2 _ hc
  have := userName_injective _ _ e
  omega

theorem exec_signupHistory_succ (n : Nat) :
    exec NewUserManager (signupHistory (n + 1)) =
      ((exec NewUserManager (signupHistory n)).Signup (userName n) "pw").1 := by
  rw [signupHistory_succ, exec_append]
  rfl

/-- In `manySignups`, `2^63 - 1` Signups have succeeded, the counter is
`2^63 - 1` and the name `userName (2^63 - 1)` is free. -/
theorem manySignups_facts :
    okSignups NewUserManager (signupHistory 9223372036854775807) = 9223372036854775807 ∧
    manySignups.seq = 9223372036854775807 ∧
    manySignups.role.get (userName 9223372036854775807) = none := by
  have h1 := (signupHistory_state 9223372036854775807).1
  have h2 := exec_seq (signupHistory 9223372036854775807) NewUserManager 0 rfl
  rw [h1] at h2
  have hw : wrapInt64 (0 + ((9223372036854775807 : Nat) : Int)) = 9223372036854775807 := by
    decide
  rw [hw] at h2
  exact ⟨h1, h2, signupHistory_fresh 9223372036854775807⟩

/-- The Signup of `userName (2^63 - 1)` in `manySignups` succeeds and leads to
`signupOverflowState`, where it has the numeric id `-2^63`. -/
theorem signupOverflowState_facts :
    signupOverflowState = (manySignups.Signup (userName 9223372036854775807) "pw").1 ∧
    (manySignups.Signup (userName 9223372036854775807) "pw").2 = none ∧
    signupOverflowState.seq = -9223372036854775808 ∧
    signupOverflowState.uid.get (-9223372036854775808) =
      some (userName 9223372036854775807) ∧
    signupOverflowState.role.get (userName 9223372036854775807) =
      some { password := "pw", UID := -9223372036854775808, Secure := Session.zero } := by
  obtain ⟨_, hseq, hfresh⟩ := manySignups_facts
  have hs := Signup_of_absent manySignups (userName 9223372036854775807) "pw" hfresh
  have hw : wrapInt64 (manySignups.seq + 1) = -9223372036854775808 := by
    rw [hseq]; decide
  rw [hw] at hs
  have e : signupOverflowState = (manySignups.Signup (userName 9223372036854775807) "pw").1 :=
    exec_signupHistory_succ 9223372036854775807
  refine ⟨e, (Signup_ok_iff _ _ _).2 hfresh, ?_, ?_, ?_⟩
  · rw [e, hs]
  · rw [e, hs]; exact SafeMap.get_set_self _ _ _
  · rw [e, hs]; exact SafeMap.get_set_self _ _ _

/-- In a reachable registry every entry of the numeric-id index leads to a
record of the identifier index. -/
theorem reachable_uid_has_record (u : UserManager) (hu : Reachable u) :
    ∀ (n : Int) (id : String), u.uid.get n = some id →
      ∃ info : UserInfo, u.role.get id = some info := by
  refine reachable_induct (fun u => ∀ (n : Int) (id : String), u.uid.get n = some id →
      ∃ info : UserInfo, u.role.get id = some info) ?_ ?_ u hu
  · intro n id h
    simp [NewUserManager, NewSafeMap, SafeMap.get] at h
  · intro u c ih n id h
    have keep : ∀ info : UserInfo, u.role.get id = some info →
        ∃ info1 : UserInfo, (step u c).role.get id = some info1 := by
      intro info hi
      obtain ⟨info1, h1, _⟩ := step_record u c id info hi
      exact ⟨info1, h1⟩
    cases c with
    | signup id1 pw =>
      cases hr : u.role.get id1 with
      | none =>
        have hs := Signup_of_absent u id1 pw hr
        simp only [step, hs, SafeMap.get_set] at h
        by_cases e : n = wrapInt64 (u.seq + 1)
        · simp only [e, if_true, Option.some.injEq] at h
          subst h
          exact ⟨_, by simp only [step, hs]; exact SafeMap.get_set_self _ _ _⟩
        · simp only [e, if_false] at h
          obtain ⟨info, hi⟩ := ih n id h
          exact keep info hi
      | some info0 =>
        simp only [step, Signup_of_present u id1 pw info0 hr] at h
        obtain ⟨info, hi⟩ := ih n id h
        exact keep info hi
    | login id1 pw rnd =>
      simp only [step, (Login_seq_uid u id1 pw rnd).2] at h
      obtain ⟨info, hi⟩ := ih n id h
      exact keep info hi
    | action a uid sid =>
      simp only [step, (Action_seq_uid u a uid sid).2] at h
      obtain ⟨info, hi⟩ := ih n id h
      exact keep info hi

/-! ## Claims on single calls -/

/-- C1 (the code departs from the claim): after `Signup("alice", "pw")` alone,
so on an account that never had a successful Login, `Action("ping", 1, "")`
with the empty token does not fail with ErrWrongSessionID: it returns
`(1, nil)` and stores the counter 1, while the token `"x"` is refused. -/
theorem C1_empty_token_accepted_before_login :
    (NewUserManager.Signup "alice" "pw").2 = none ∧
    ((NewUserManager.Signup "alice" "pw").1.Action "ping" 1 "").2 = (1, none) ∧
    (((NewUserManager.Signup "alice" "pw").1.Action "ping" 1 "").1.role.get "alice").map
        (fun info => info.Secure.PingCount) = some 1 ∧
    ((NewUserManager.Signup "alice" "pw").1.Action "ping" 1 "x").2 =
      (0, some ErrWrongSessionID) := by
  decide

/-- C2: in every registry state (reachable or not) where `id` is not
registered, `Signup(id, pw1)` returns nil, a following `Signup(id, pw2)`
returns ErrDuplicateID and gives back the state of the first call unchanged;
the stored password is still `pw1` and `seq` is the value after the first
call. -/
theorem C2_signup_twice (u : UserManager) (id pw1 pw2 : String)
    (h : u.role.get id = none) :
    (u.Signup id pw1).2 = none ∧
    (u.Signup id pw1).1.Signup id pw2 = ((u.Signup id pw1).1, some ErrDuplicateID) ∧
    (((u.Signup id pw1).1.Signup id pw2).1.role.get id).map (fun info => info.password)
      = some pw1 ∧
    ((u.Signup id pw1).1.Signup id pw2).1.seq = (u.Signup id pw1).1.seq := by
  have h1 : (u.Signup id pw1).1.role.get id =
      some { password := pw1, UID := wrapInt64 (u.seq + 1), Secure := Session.zero } := by
    rw [Signup_of_absent u id pw1 h]
    exact SafeMap.get_set_self _ _ _
  have h2 := Signup_of_present (u.Signup id pw1).1 id pw2 _ h1
  refine ⟨(Signup_ok_iff u id pw1).2 h, h2, ?_, ?_⟩
  · rw [h2, h1]; rfl
  · rw [h2]

theorem C2_signup_twice_witness :
    NewUserManager.role.get "alice" = none ∧
    (NewUserManager.Signup "alice" "pw1").2 = none ∧
    (NewUserManager.Signup "alice" "pw1").1.Signup "alice" "pw2" =
      ((NewUserManager.Signup "alice" "pw1").1, some ErrDuplicateID) :=
  ⟨rfl, (C2_signup_twice NewUserManager "alice" "pw1" "pw2" rfl).1,
    (C2_signup_twice NewUserManager "alice" "pw1" "pw2" rfl).2.1⟩

/-- C5: in every registry state, `Login(id, pw)` returns ErrUnknownID when `id`
is not in the identifier index and ErrWrongPassword when the stored password
differs from `pw`; in both cases, whatever the random source would give, the
result is the zero UserInfo and the state is the one given. -/
theorem C5_login_failures (u : UserManager) (id pw : String) (rnd : RandRead) :
    (u.role.get id = none → u.Login id pw rnd = (u, UserInfo.zero, some ErrUnknownID)) ∧
    (∀ info : UserInfo, u.role.get id = some info → info.password ≠ pw →
      u.Login id pw rnd = (u, UserInfo.zero, some ErrWrongPassword)) :=
  ⟨Login_of_absent u id pw rnd, Login_of_wrong_password u id pw rnd⟩

theorem C5_login_failures_witness :
    NewUserManager.role.get "bob" = none ∧
    NewUserManager.Login "bob" "pw" (RandRead.fill (fun _ => 0)) =
      (NewUserManager, UserInfo.zero, some ErrUnknownID) ∧
    (NewUserManager.Signup "alice" "pw").1.role.get "alice" =
      some { password := "pw", UID := 1, Secure := Session.zero } ∧
    ("pw" : String) ≠ "qw" ∧
    (NewUserManager.Signup "alice" "pw").1.Login "alice" "qw" (RandRead.fill (fun _ => 0)) =
      ((NewUserManager.Signup "alice" "pw").1, UserInfo.zero, some ErrWrongPassword) :=
  ⟨rfl,
    (C5_login_failures NewUserManager "bob" "pw" (RandRead.fill (fun _ => 0))).1 rfl,
    by decide, by decide,
    (C5_login_failures (NewUserManager.Signup "alice" "pw").1 "alice" "qw"
      (RandRead.fill (fun _ => 0))).2
      { password := "pw", UID := 1, Secure := Session.zero } (by decide) (by decide)⟩

/-- C6: in every reachable registry state, every numeric id `N` in the
numeric-id index leads to a record, and for every action name (also "ping" and
"reset") and every token `sid` different from the token stored in that record,
`Action(action, N, sid)` returns `(0, ErrWrongSessionID)` and gives back the
registry, hence that account's counter, unchanged. -/
theorem C6_wrong_token_refused (u : UserManager) (hu : Reachable u) (N : Int) (id : String)
    (hN : u.uid.get N = some id) :
    ∃ info : UserInfo, u.role.get id = some info ∧
      ∀ action sid : String, sid ≠ info.Secure.SessionID →
        u.Action action N sid = (u, 0, some ErrWrongSessionID) := by
  obtain ⟨info, hid⟩ := reachable_uid_has_record u hu N id hN
  exact ⟨info, hid, fun action sid hsid =>
    Action_of_wrong_session u action N sid id info hN hid hsid⟩

theorem C6_wrong_token_refused_witness :
    Reachable aliceLoggedIn ∧ aliceLoggedIn.uid.get 1 = some "alice" ∧
    ("x" : String) ≠ "AAAAAAAAAAAAAAAAAAAAAA==" ∧
    aliceLoggedIn.Action "ping" 1 "x" = (aliceLoggedIn, 0, some ErrWrongSessionID) := by
  obtain ⟨info, hi, h⟩ :=
    C6_wrong_token_refused aliceLoggedIn ⟨pingHistory 0, rfl⟩ 1 "alice" (by decide)
  rw [aliceLoggedIn_role] at hi
  cases hi
  exact ⟨⟨pingHistory 0, rfl⟩, by decide, by decide, h "ping" "x" (by decide)⟩

/-- C8: in every reachable registry state, every numeric id `N` in the
numeric-id index leads to a record, and with `T` the token stored in it, for
every action string other than exactly "reset" and "ping" (such as "fly", ""
or "Ping"), `Action(action, N, T)` returns `(0, ErrUnknownAction)` and gives
back the registry, hence the counter, unchanged. -/
theorem C8_unknown_action (u : UserManager) (hu : Reachable u) (N : Int) (id : String)
    (hN : u.uid.get N = some id) :
    ∃ info : UserInfo, u.role.get id = some info ∧
      ∀ action : String, action ≠ "reset" → action ≠ "ping" →
        u.Action action N info.Secure.SessionID = (u, 0, some ErrUnknownAction) := by
  obtain ⟨info, hid⟩ := reachable_uid_has_record u hu N id hN
  exact ⟨info, hid, fun action h1 h2 =>
    Action_of_unknown_action u action N id info hN hid h1 h2⟩

theorem C8_unknown_action_witness :
    Reachable aliceLoggedIn ∧ aliceLoggedIn.uid.get 1 = some "alice" ∧
    ("fly" : String) ≠ "reset" ∧ ("fly" : String) ≠ "ping" ∧
    aliceLoggedIn.Action "fly" 1 "AAAAAAAAAAAAAAAAAAAAAA==" =
      (aliceLoggedIn, 0, some ErrUnknownAction) := by
  obtain ⟨info, hi, h⟩ :=
    C8_unknown_action aliceLoggedIn ⟨pingHistory 0, rfl⟩ 1 "alice" (by decide)
  rw [aliceLoggedIn_role] at hi
  cases hi
  exact ⟨⟨pingHistory 0, rfl⟩, by decide, by decide, by decide,
    h "fly" (by decide) (by decide)⟩

/-! ## The counter: ping and reset -/

/-- C3 (as stated, fails): in the reachable state `pingOverflowState` account
`alice` has numeric id 1, token `"AAAAAAAAAAAAAAAAAAAAAA=="` and counter
`c = 2^63 - 1`; there `Action("ping", 1, T)` returns `-2^63` with a nil error,
which is not `c + 1`. -/
theorem C3_ping_at_maxInt64 :
    Reachable pingOverflowState ∧
    pingOverflowState.uid.get 1 = some "alice" ∧
    pingOverflowState.role.get "alice" =
      some { password := "pw", UID := 1,
             Secure := { SessionID := "AAAAAAAAAAAAAAAAAAAAAA==",
                         PingCount := 9223372036854775807 } } ∧
    (pingOverflowState.Action "ping" 1 "AAAAAAAAAAAAAAAAAAAAAA==").2 =
      (-9223372036854775808, none) ∧
    (pingOverflowState.Action "ping" 1 "AAAAAAAAAAAAAAAAAAAAAA==").2.1 ≠
      9223372036854775807 + 1 := by
  have h := exec_pingHistory_state 9223372036854775807
  have hw : wrapInt64 ((9223372036854775807 : Nat) : Int) = 9223372036854775807 := by
    decide
  rw [hw] at h
  have ha := Action_ping pingOverflowState 1 "alice" _ h.1 h.2
  have hv : wrapInt64 (9223372036854775807 + 1) = -9223372036854775808 := by decide
  simp only [hv] at ha
  refine ⟨⟨_, rfl⟩, h.1, h.2, ?_, ?_⟩
  · rw [ha]
  · rw [ha]; decide

/-- C3 (amended): in every reachable registry state where the numeric-id index
maps `N` to `id` and the record of `id` has token `T` and counter `c`:
`Action("ping", N, T)` returns `c + 1` when `c < 2^63 - 1` (and `-2^63` when
`c = 2^63 - 1`), `Action("reset", N, T)` returns 0, both with a nil error, and
the counter stored for `id` afterwards is the returned value. Directly after a
successful Login of `id` returning `(N, T)`, `N` being mapped to `id`, the
calls ping, ping, reset, ping return 1, 2, 0, 1 in that order. -/
theorem C3_ping_reset (u : UserManager) (hu : Reachable u) :
    (∀ (N : Int) (id : String) (info : UserInfo), u.uid.get N = some id →
      u.role.get id = some info →
      (info.Secure.PingCount < maxInt64 →
        (u.Action "ping" N info.Secure.SessionID).2 = (info.Secure.PingCount + 1, none) ∧
        ((u.Action "ping" N info.Secure.SessionID).1.role.get id).map
          (fun i => i.Secure.PingCount) = some (info.Secure.PingCount + 1)) ∧
      (info.Secure.PingCount = maxInt64 →
        (u.Action "ping" N info.Secure.SessionID).2 = (minInt64, none) ∧
        ((u.Action "ping" N info.Secure.SessionID).1.role.get id).map
          (fun i => i.Secure.PingCount) = some minInt64) ∧
      (u.Action "reset" N info.Secure.SessionID).2 = (0, none) ∧
      ((u.Action "reset" N info.Secure.SessionID).1.role.get id).map
        (fun i => i.Secure.PingCount) = some 0) ∧
    (∀ (id pw : String) (rnd : RandRead) (u1 : UserManager) (info : UserInfo),
      u.Login id pw rnd = (u1, info, none) → u1.uid.get info.UID = some id →
      (u1.Action "ping" info.UID info.Secure.SessionID).2 = (1, none) ∧
      ((u1.Action "ping" info.UID info.Secure.SessionID).1.Action "ping" info.UID
        info.Secure.SessionID).2 = (2, none) ∧
      (((u1.Action "ping" info.UID info.Secure.SessionID).1.Action "ping" info.UID
        info.Secure.SessionID).1.Action "reset" info.UID info.Secure.SessionID).2
          = (0, none) ∧
      ((((u1.Action "ping" info.UID info.Secure.SessionID).1.Action "ping" info.UID
        info.Secure.SessionID).1.Action "reset" info.UID info.Secure.SessionID).1.Action
          "ping" info.UID info.Secure.SessionID).2 = (1, none)) := by
  constructor
  · intro N id info hN hid
    have hr := reachable_pingCount_range u hu id info hid
    have hp := Action_ping u N id info hN hid
    have hz := Action_reset u N id info hN hid
    refine ⟨?_, ?_, ?_, ?_⟩
    · intro hlt
      have hw : wrapInt64 (info.Secure.PingCount + 1) = info.Secure.PingCount + 1 := by
        apply wrapInt64_of_range
        · have := hr.1
          unfold minInt64 at *
          omega
        · unfold maxInt64 at *
          omega
      rw [hp, hw]
      exact ⟨rfl, by simp [SafeMap.get_set_self]⟩
    · intro heq
      have hw : wrapInt64 (info.Secure.PingCount + 1) = minInt64 := by
        rw [heq]; decide
      rw [hp, hw]
      exact ⟨rfl, by simp [SafeMap.get_set_self]⟩
    · rw [hz]
    · rw [hz]; simp [SafeMap.get_set_self]
  · intro id pw rnd u1 info hlogin huid
    rcases Login_cases u id pw rnd with ⟨_, hne⟩ | ⟨info0, bytes, _, hid0, _, heq⟩
    · rw [hlogin] at hne; exact absurd rfl hne
    · rw [heq] at hlogin
      simp only [Prod.mk.injEq, and_true] at hlogin
      obtain ⟨hu1, hinfo⟩ := hlogin
      have hid1 : u1.role.get id = some info := by
        rw [← hu1, ← hinfo]; exact SafeMap.get_set_self _ _ _
      have hc : info.Secure.PingCount = 0 := by rw [← hinfo]
      have e1 : wrapInt64 (0 + 1) = 1 := by decide
      have e2 : wrapInt64 (1 + 1) = 2 := by decide
      have a1 := Action_ping u1 info.UID id info huid hid1
      rw [hc, e1] at a1
      have a2 := Action_ping (u1.Action "ping" info.UID info.Secure.SessionID).1 info.UID id
        { info with Secure := { SessionID := info.Secure.SessionID, PingCount := 1 } }
        (by rw [a1]; exact huid) (by rw [a1]; exact SafeMap.get_set_self _ _ _)
      simp only [e2] at a2
      have a3 := Action_reset ((u1.Action "ping" info.UID info.Secure.SessionID).1.Action
        "ping" info.UID info.Secure.SessionID).1 info.UID id
        { info with Secure := { SessionID := info.Secure.SessionID, PingCount := 2 } }
        (by rw [a2, a1]; exact huid) (by rw [a2]; exact SafeMap.get_set_self _ _ _)
      simp only at a3
      have a4 := Action_ping (((u1.Action "ping" info.UID info.Secure.SessionID).1.Action
        "ping" info.UID info.Secure.SessionID).1.Action "reset" info.UID
          info.Secure.SessionID).1 info.UID id
        { info with Secure := { SessionID := info.Secure.SessionID, PingCount := 0 } }
        (by rw [a3, a2, a1]; exact huid) (by rw [a3]; exact SafeMap.get_set_self _ _ _)
      simp only [e1] at a4
      refine ⟨?_, ?_, ?_, ?_⟩
      · rw [a1]
      · rw [a2]
      · rw [a3]
      · rw [a4]

theorem C3_ping_reset_witness :
    Reachable aliceLoggedIn ∧
    aliceLoggedIn.uid.get 1 = some "alice" ∧
    aliceLoggedIn.role.get "alice" =
      some { password := "pw", UID := 1,
             Secure := { SessionID := "AAAAAAAAAAAAAAAAAAAAAA==", PingCount := 0 } } ∧
    (0 : Int) < maxInt64 ∧
    (aliceLoggedIn.Action "ping" 1 "AAAAAAAAAAAAAAAAAAAAAA==").2 = (1, none) ∧
    (aliceLoggedIn.Action "reset" 1 "AAAAAAAAAAAAAAAAAAAAAA==").2 = (0, none) ∧
    Reachable (NewUserManager.Signup "alice" "pw").1 ∧
    (NewUserManager.Signup "alice" "pw").1.Login "alice" "pw" (RandRead.fill (fun _ => 0)) =
      (aliceLoggedIn,
        { password := "pw", UID := 1,
          Secure := { SessionID := "AAAAAAAAAAAAAAAAAAAAAA==", PingCount := 0 } }, none) ∧
    ((((aliceLoggedIn.Action "ping" 1 "AAAAAAAAAAAAAAAAAAAAAA==").1.Action "ping" 1
      "AAAAAAAAAAAAAAAAAAAAAA==").1.Action "reset" 1 "AAAAAAAAAAAAAAAAAAAAAA==").1.Action
        "ping" 1 "AAAAAAAAAAAAAAAAAAAAAA==").2 = (1, none) := by
  have hr1 : Reachable aliceLoggedIn := ⟨pingHistory 0, rfl⟩
  have hr2 : Reachable (NewUserManager.Signup "alice" "pw").1 :=
    ⟨[Call.signup "alice" "pw"], rfl⟩
  have hlogin : (NewUserManager.Signup "alice" "pw").1.Login "alice" "pw"
      (RandRead.fill (fun _ => 0)) =
      (aliceLoggedIn,
        { password := "pw", UID := 1,
          Secure := { SessionID := "AAAAAAAAAAAAAAAAAAAAAA==", PingCount := 0 } }, none) := by
    have h := Login_of_rand_fill (NewUserManager.Signup "alice" "pw").1 "alice" "pw"
      (fun _ => 0) { password := "pw", UID := 1, Secure := Session.zero } (by decide) rfl
    rw [h]
    have ht : (newSecureID 16 (RandRead.fill (fun _ => 0))).1 = "AAAAAAAAAAAAAAAAAAAAAA==" := by
      decide
    simp only [ht]
    rfl
  have h1 := (C3_ping_reset aliceLoggedIn hr1).1 1 "alice" _ aliceLoggedIn_uid
    aliceLoggedIn_role
  have h2 := (C3_ping_reset (NewUserManager.Signup "alice" "pw").1 hr2).2 "alice" "pw"
    (RandRead.fill (fun _ => 0)) aliceLoggedIn _ hlogin aliceLoggedIn_uid
  exact ⟨hr1, aliceLoggedIn_uid, aliceLoggedIn_role, by decide, (h1.1 (by decide)).1,
    h1.2.2.1, hr2, hlogin, h2.2.2.2⟩

/-! ## Login after Signup, and the latest token -/

/-- C4: in every history from `NewUserManager` (calls `cs0`, then a
`Signup(id, pw)` that returns nil, then any calls `cs`), a `Login(id, pw)` for
which the random source delivers its bytes succeeds, and the UID it returns is
the numeric id that this Signup stored for `id` and entered in the numeric-id
index. -/
theorem C4_login_after_signup (cs0 cs : List Call) (id pw : String) (bytes : Nat → Fin 256)
    (hs : ((exec NewUserManager cs0).Signup id pw).2 = none) :
    ((exec ((exec NewUserManager cs0).Signup id pw).1 cs).Login id pw
      (RandRead.fill bytes)).2.2 = none ∧
    (((exec NewUserManager cs0).Signup id pw).1.role.get id).map (fun i => i.UID) =
      some ((exec ((exec NewUserManager cs0).Signup id pw).1 cs).Login id pw
        (RandRead.fill bytes)).2.1.UID ∧
    ((exec NewUserManager cs0).Signup id pw).1.uid.get
      ((exec ((exec NewUserManager cs0).Signup id pw).1 cs).Login id pw
        (RandRead.fill bytes)).2.1.UID = some id := by
  have habs := (Signup_ok_iff _ id pw).1 hs
  have hsig := Signup_of_absent (exec NewUserManager cs0) id pw habs
  have hrec : ((exec NewUserManager cs0).Signup id pw).1.role.get id =
      some { password := pw, UID := wrapInt64 ((exec NewUserManager cs0).seq + 1),
             Secure := Session.zero } := by
    rw [hsig]; exact SafeMap.get_set_self _ _ _
  obtain ⟨info1, h1, hp1, hu1, _⟩ :=
    exec_record id cs ((exec NewUserManager cs0).Signup id pw).1 _ hrec
  have hlog := Login_of_rand_fill (exec ((exec NewUserManager cs0).Signup id pw).1 cs) id pw
    bytes info1 h1 hp1
  rw [hlog, hrec]
  refine ⟨rfl, ?_, ?_⟩
  · simp only [Option.map_some', hu1]
  · simp only [hu1]
    rw [hsig]; exact SafeMap.get_set_self _ _ _

theorem C4_login_after_signup_witness :
    ((exec NewUserManager [Call.signup "bob" "x"]).Signup "alice" "pw").2 = none ∧
    ((exec ((exec NewUserManager [Call.signup "bob" "x"]).Signup "alice" "pw").1
        [Call.login "alice" "pw" (RandRead.fill (fun _ => 0)),
         Call.action "ping" 2 "AAAAAAAAAAAAAAAAAAAAAA==",
         Call.signup "alice" "other"]).Login "alice" "pw"
      (RandRead.fill (fun _ => 255))).2.2 = none :=
  ⟨by decide,
    (C4_login_after_signup [Call.signup "bob" "x"]
      [Call.login "alice" "pw" (RandRead.fill (fun _ => 0)),
       Call.action "ping" 2 "AAAAAAAAAAAAAAAAAAAAAA==",
       Call.signup "alice" "other"] "alice" "pw" (fun _ => 255) (by decide)).1⟩

/-- C7: let a `Login(id, pw)` succeed with token `T1`, a later `Login(id, pw)`
succeed with a token `T2` different from `T1`, and let any calls follow among
which no Login of `id` succeeds. In the state then reached, for `N` mapped to
`id` by the numeric-id index, `Action("ping", N, T1)` fails with
ErrWrongSessionID and changes nothing, while `Action("ping", N, T2)` returns a
nil error. -/
theorem C7_only_latest_token (u : UserManager) (id pw : String) (r1 r2 : RandRead)
    (cs2 cs3 : List Call) (N : Int)
    (h1 : (u.Login id pw r1).2.2 = none)
    (h2 : ((exec (u.Login id pw r1).1 cs2).Login id pw r2).2.2 = none)
    (hne : ((exec (u.Login id pw r1).1 cs2).Login id pw r2).2.1.Secure.SessionID ≠
      (u.Login id pw r1).2.1.Secure.SessionID)
    (h3 : noLoginOf id ((exec (u.Login id pw r1).1 cs2).Login id pw r2).1 cs3)
    (hN : (exec ((exec (u.Login id pw r1).1 cs2).Login id pw r2).1 cs3).uid.get N = some id) :
    (exec ((exec (u.Login id pw r1).1 cs2).Login id pw r2).1 cs3).Action "ping" N
        (u.Login id pw r1).2.1.Secure.SessionID =
      (exec ((exec (u.Login id pw r1).1 cs2).Login id pw r2).1 cs3, 0,
        some ErrWrongSessionID) ∧
    ((exec ((exec (u.Login id pw r1).1 cs2).Login id pw r2).1 cs3).Action "ping" N
      ((exec (u.Login id pw r1).1 cs2).Login id pw r2).2.1.Secure.SessionID).2.2 = none := by
  have _ := h1
  rcases Login_cases (exec (u.Login id pw r1).1 cs2) id pw r2 with
    ⟨_, hbad⟩ | ⟨info0, bytes, _, hr, _, heq⟩
  · exact absurd h2 hbad
  · have hrec : ((exec (u.Login id pw r1).1 cs2).Login id pw r2).1.role.get id =
        some ((exec (u.Login id pw r1).1 cs2).Login id pw r2).2.1 := by
      rw [heq]; exact SafeMap.get_set_self _ _ _
    obtain ⟨info3, hr3, _, _, hs3⟩ := exec_record id cs3 _ _ hrec
    have htok := hs3 h3
    constructor
    · apply Action_of_wrong_session _ "ping" N _ id info3 hN hr3
      rw [htok]
      exact fun e => hne e.symm
    · rw [← htok, Action_ping _ N id info3 hN hr3]

theorem C7_only_latest_token_witness :
    ((NewUserManager.Signup "alice" "pw").1.Login "alice" "pw"
      (RandRead.fill (fun _ => 0))).2.1.Secure.SessionID = "AAAAAAAAAAAAAAAAAAAAAA==" ∧
    (aliceLoggedIn.Login "alice" "pw" (RandRead.fill (fun _ => 255))).2.1.Secure.SessionID =
      "/////////////////////w==" ∧
    ((exec (aliceLoggedIn.Login "alice" "pw" (RandRead.fill (fun _ => 255))).1
      [Call.action "ping" 1 "/////////////////////w=="]).Action "ping" 1
        "AAAAAAAAAAAAAAAAAAAAAA==").2 = (0, some ErrWrongSessionID) ∧
    ((exec (aliceLoggedIn.Login "alice" "pw" (RandRead.fill (fun _ => 255))).1
      [Call.action "ping" 1 "/////////////////////w=="]).Action "ping" 1
        "/////////////////////w==").2.2 = none := by
  have h := C7_only_latest_token (NewUserManager.Signup "alice" "pw").1 "alice" "pw"
    (RandRead.fill (fun _ => 0)) (RandRead.fill (fun _ => 255)) []
    [Call.action "ping" 1 "/////////////////////w=="] 1 (by decide) (by decide) (by decide)
    ⟨rfl, trivial⟩ (by decide)
  exact ⟨by decide, by decide, congrArg Prod.snd h.1, h.2⟩

/-! ## Numeric ids -/

/-- C9 (as stated, fails): `manySignups` is the state after the `2^63 - 1`
successful Signups of `signupHistory (2^63 - 1)`; the Signup of the fresh name
`userName (2^63 - 1)` there returns nil, so it is successful Signup number
`2^63`, and the numeric id it assigns is `-2^63`, not `2^63`. -/
theorem C9_signup_number_2_pow_63 :
    okSignups NewUserManager (signupHistory 9223372036854775807) = 9223372036854775807 ∧
    (manySignups.Signup (userName 9223372036854775807) "pw").2 = none ∧
    ((manySignups.Signup (userName 9223372036854775807) "pw").1.role.get
      (userName 9223372036854775807)).map (fun i => i.UID) = some (-9223372036854775808) ∧
    (-9223372036854775808 : Int) ≠ ((9223372036854775807 + 1 : Nat) : Int) := by
  obtain ⟨e, hok, _, _, hrole⟩ := signupOverflowState_facts
  refine ⟨manySignups_facts.1, hok, ?_, by decide⟩
  rw [← e, hrole]
  rfl

/-- C9 (amended): after any history `cs` from `NewUserManager` with `k - 1`
successful Signups, where `k ≤ 2^63 - 1`, a Signup that returns nil makes the
counter `k`, stores the record with numeric id `k` and enters `k ↦ id` in the
numeric-id index (the first account gets 1); a failed Signup, a Login and an
Action leave the counter as it is. -/
theorem C9_sequential_ids (cs : List Call) :
    (∀ id pw : String, ((exec NewUserManager cs).Signup id pw).2 = none →
      okSignups NewUserManager cs < 9223372036854775807 →
      ((exec NewUserManager cs).Signup id pw).1.seq = (okSignups NewUserManager cs : Int) + 1 ∧
      ((exec NewUserManager cs).Signup id pw).1.role.get id =
        some { password := pw, UID := (okSignups NewUserManager cs : Int) + 1,
               Secure := Session.zero } ∧
      ((exec NewUserManager cs).Signup id pw).1.uid.get
        ((okSignups NewUserManager cs : Int) + 1) = some id) ∧
    (∀ id pw : String, ((exec NewUserManager cs).Signup id pw).2 ≠ none →
      ((exec NewUserManager cs).Signup id pw).1.seq = (exec NewUserManager cs).seq) ∧
    (∀ (id pw : String) (rnd : RandRead),
      ((exec NewUserManager cs).Login id pw rnd).1.seq = (exec NewUserManager cs).seq) ∧
    (∀ (action : String) (uid : Int) (sid : String),
      ((exec NewUserManager cs).Action action uid sid).1.seq = (exec NewUserManager cs).seq) := by
  refine ⟨?_, ?_, ?_, ?_⟩
  · intro id pw hok hk
    have hseq := exec_seq cs NewUserManager 0 rfl
    have hw : wrapInt64 ((exec NewUserManager cs).seq + 1) =
        (okSignups NewUserManager cs : Int) + 1 := by
      rw [hseq, wrapInt64_add_wrap, zero_add]
      apply wrapInt64_of_range
      · unfold minInt64; omega
      · unfold maxInt64; omega
    have hs := Signup_of_absent _ id pw ((Signup_ok_iff _ id pw).1 hok)
    rw [hw] at hs
    rw [hs]
    exact ⟨rfl, SafeMap.get_set_self _ _ _, SafeMap.get_set_self _ _ _⟩
  · intro id pw hbad
    rw [Signup_failed _ id pw hbad]
  · intro id pw rnd
    exact (Login_seq_uid _ id pw rnd).1
  · intro action uid sid
    exact (Action_seq_uid _ action uid sid).1

theorem C9_sequential_ids_witness :
    ((exec NewUserManager [Call.signup "alice" "pw", Call.signup "alice" "qw"]).Signup
      "bob" "x").2 = none ∧
    okSignups NewUserManager [Call.signup "alice" "pw", Call.signup "alice" "qw"]
      < 9223372036854775807 ∧
    ((exec NewUserManager [Call.signup "alice" "pw", Call.signup "alice" "qw"]).Signup
      "bob" "x").1.seq = 2 ∧
    ((exec NewUserManager [Call.signup "alice" "pw", Call.signup "alice" "qw"]).Signup
      "bob" "x").1.uid.get 2 = some "bob" ∧
    ((exec NewUserManager [Call.signup "alice" "pw", Call.signup "alice" "qw"]).Signup
      "alice" "x").2 ≠ none ∧
    ((exec NewUserManager [Call.signup "alice" "pw", Call.signup "alice" "qw"]).Signup
      "alice" "x").1.seq = 1 := by
  have h := C9_sequential_ids [Call.signup "alice" "pw", Call.signup "alice" "qw"]
  have h1 := h.1 "bob" "x" (by decide) (by decide)
  have h2 := h.2.1 "alice" "x" (by decide)
  exact ⟨by decide, by decide, h1.1, h1.2.2, by decide, h2⟩

/-- C10 (as stated, fails): in the reachable state `signupOverflowState` the
counter is `-2^63`, so no uid lies in the range `1..seq`; yet for
`uid = -2^63`, the numeric id of the account registered last,
`Action("ping", uid, "x")` fails with ErrWrongSessionID, not with
ErrUnknownUID. -/
theorem C10_known_uid_outside_range :
    Reachable signupOverflowState ∧
    signupOverflowState.seq = -9223372036854775808 ∧
    ¬ (1 ≤ (-9223372036854775808 : Int) ∧
        (-9223372036854775808 : Int) ≤ signupOverflowState.seq) ∧
    (signupOverflowState.Action "ping" (-9223372036854775808) "x").2.2 =
      some ErrWrongSessionID ∧
    (signupOverflowState.Action "ping" (-9223372036854775808) "x").2.2 ≠
      some ErrUnknownUID := by
  obtain ⟨_, _, hseq, huid, hrole⟩ := signupOverflowState_facts
  have ha := Action_of_wrong_session signupOverflowState "ping" (-9223372036854775808) "x"
    _ _ huid hrole (by decide)
  refine ⟨⟨signupHistory (9223372036854775807 + 1), rfl⟩, hseq, ?_, ?_, ?_⟩
  · rw [hseq]; decide
  · rw [ha]
  · rw [ha]; decide

/-- C10 (amended): in every state reached from `NewUserManager` by a history
`cs`, `Action(action, uid, sid)` fails with ErrUnknownUID if and only if the
numeric-id index has no entry for `uid`; as long as at most `2^63 - 1` Signups
have succeeded, that is if and only if `uid` is not in the range `1..seq`.
When it fails this way it returns 0 and the registry unchanged, whatever
`action` and `sid` are. -/
theorem C10_unknown_uid (cs : List Call) (action : String) (uid : Int) (sid : String) :
    (((exec NewUserManager cs).Action action uid sid).2.2 = some ErrUnknownUID ↔
      (exec NewUserManager cs).uid.get uid = none) ∧
    (((okSignups NewUserManager cs : Nat) : Int) ≤ maxInt64 →
      (((exec NewUserManager cs).Action action uid sid).2.2 = some ErrUnknownUID ↔
        ¬ (1 ≤ uid ∧ uid ≤ (exec NewUserManager cs).seq))) ∧
    (((exec NewUserManager cs).Action action uid sid).2.2 = some ErrUnknownUID →
      (exec NewUserManager cs).Action action uid sid =
        (exec NewUserManager cs, 0, some ErrUnknownUID)) := by
  have ha := Action_unknown_uid_iff (exec NewUserManager cs) action uid sid
  refine ⟨ha.1, ?_, ha.2⟩
  intro hb
  have hd := exec_uid_domain cs NewUserManager 0 rfl
    (by
      intro n
      constructor
      · intro h; exact absurd rfl h
      · intro h; simp only [Nat.cast_zero] at h; omega)
    (by simpa using hb)
  rw [ha.1, hd.1]
  have := hd.2 uid
  constructor
  · intro hnone hin
    exact (this.2 hin) hnone
  · intro hnot
    by_contra hc
    exact hnot (this.1 hc)

theorem C10_unknown_uid_witness :
    ((okSignups NewUserManager [Call.signup "alice" "pw"] : Nat) : Int) ≤ maxInt64 ∧
    ¬ (1 ≤ (2 : Int) ∧ (2 : Int) ≤ (exec NewUserManager [Call.signup "alice" "pw"]).seq) ∧
    (exec NewUserManager [Call.signup "alice" "pw"]).Action "ping" 2 "" =
      (exec NewUserManager [Call.signup "alice" "pw"], 0, some ErrUnknownUID) := by
  have h := C10_unknown_uid [Call.signup "alice" "pw"] "ping" 2 ""
  exact ⟨by decide, by decide, h.2.2 ((h.2.1 (by decide)).2 (by decide))⟩

/-! ## The concurrent map on its own -/

theorem SafeMap.ext_get {K V : Type} (s t : SafeMap K V) (h : ∀ k : K, s.get k = t.get k) :
    s = t := by
  cases s with
  | mk m =>
    cases t with
    | mk m1 =>
      have : m = m1 := funext h
      rw [this]

theorem Key.eq_true (a b : Key) (h : Key.eq a b = true) : a = b := by
  cases a <;> cases b <;> simp [Key.eq] at h <;> simp [h]

theorem Key.eq_symm (a b : Key) : Key.eq a b = Key.eq b a := by
  cases a <;> cases b <;> simp [Key.eq, Eq.comm]

/-- After overwriting, the first entry with key `k` holds the new value. -/
theorem find_after_overwrite {V : Type} (k : Key) (v : V) (l : List (Key × V))
    (h : l.any (fun e => Key.eq e.1 k) = true) :
    ((l.map (fun e => if Key.eq e.1 k then (e.1, v) else e)).find?
      (fun e => Key.eq e.1 k)).map (fun e => e.2) = some v := by
  induction l with
  | nil => simp at h
  | cons e l ih =>
    by_cases he : Key.eq e.1 k = true
    · simp [List.find?, he]
    · have h1 : l.any (fun e => Key.eq e.1 k) = true := by
        simpa [List.any_cons, he] using h
      simp only [Bool.not_eq_true] at he
      simp only [List.map_cons, he, Bool.false_eq_true, if_false, List.find?]
      exact ih h1

/-- Overwriting the entries of key `k` does not change what a lookup of a key
different from `k` finds. -/
theorem find_other_after_overwrite {V : Type} (k k1 : Key) (v : V) (l : List (Key × V))
    (hne : Key.eq k1 k = false) :
    ((l.map (fun e => if Key.eq e.1 k then (e.1, v) else e)).find?
      (fun e => Key.eq e.1 k1)).map (fun e => e.2) =
    (l.find? (fun e => Key.eq e.1 k1)).map (fun e => e.2) := by
  induction l with
  | nil => rfl
  | cons e l ih =>
    by_cases he : Key.eq e.1 k = true
    · have hk : e.1 = k := Key.eq_true _ _ he
      have h1 : Key.eq e.1 k1 = false := by
        rw [hk, Key.eq_symm]; exact hne
      simp only [List.map_cons, he, if_true, List.find?, h1]
      exact ih
    · simp only [Bool.not_eq_true] at he
      simp only [List.map_cons, he, Bool.false_eq_true, if_false, List.find?]
      cases Key.eq e.1 k1 with
      | true => rfl
      | false => exact ih

theorem find_appended {V : Type} (k k1 : Key) (v : V) (l : List (Key × V)) :
    ((l ++ [(k, v)]).find? (fun e => Key.eq e.1 k1)).map (fun e => e.2) =
      match (l.find? (fun e => Key.eq e.1 k1)).map (fun e => e.2) with
      | some w => some w
      | none => if Key.eq k k1 then some v else none := by
  induction l with
  | nil =>
    cases h : Key.eq k k1 <;> simp [List.find?, h]
  | cons e l ih =>
    cases he : Key.eq e.1 k1 with
    | true => simp [List.find?, he]
    | false => simpa [List.find?, he] using ih

theorem find_none_of_not_any {V : Type} (k : Key) (l : List (Key × V))
    (h : ¬ l.any (fun e => Key.eq e.1 k) = true) :
    (l.find? (fun e => Key.eq e.1 k)).map (fun e => e.2) = none := by
  induction l with
  | nil => rfl
  | cons e l ih =>
    have he : Key.eq e.1 k = false := by
      cases hc : Key.eq e.1 k with
      | false => rfl
      | true => exact absurd (by simp [List.any_cons, hc]) h
    have h1 : ¬ l.any (fun e => Key.eq e.1 k) = true := by
      intro hc; exact h (by simp [List.any_cons, hc])
    simp only [List.find?, he]
    exact ih h1

/-- A `set` with a hashable key runs, and a following `get` of a hashable key
`k1` gives the new value when `k1 == k` and what it gave before otherwise,
provided `k` is equal to itself. -/
theorem SafeMapAny.get_after_set {V : Type} (m : SafeMapAny V) (k k1 : Key) (v : V)
    (hk : k.hashable = true) (hk1 : k1.hashable = true) :
    ∃ m1 : SafeMapAny V, m.set k v = some m1 ∧
      (Key.eq k k = true → m1.get k = some (some v)) ∧
      (Key.eq k1 k = false → m1.get k1 = m.get k1) := by
  by_cases hany : m.entries.any (fun e => Key.eq e.1 k) = true
  · refine ⟨{ entries := m.entries.map (fun e => if Key.eq e.1 k then (e.1, v) else e) },
      by simp [SafeMapAny.set, hk, hany], ?_, ?_⟩
    · intro _
      simp only [SafeMapAny.get, hk, if_true]
      rw [find_after_overwrite k v m.entries hany]
    · intro hne
      simp only [SafeMapAny.get, hk1, if_true]
      rw [find_other_after_overwrite k k1 v m.entries hne]
  · refine ⟨{ entries := m.entries ++ [(k, v)] },
      by simp only [SafeMapAny.set, hk, if_true, hany, Bool.false_eq_true, if_false], ?_, ?_⟩
    · intro hrefl
      simp only [SafeMapAny.get, hk, if_true]
      rw [find_appended, find_none_of_not_any k m.entries hany]
      simp [hrefl]
    · intro hne
      have hne1 : Key.eq k k1 = false := by rw [Key.eq_symm]; exact hne
      simp only [SafeMapAny.get, hk1, if_true]
      rw [find_appended]
      cases (m.entries.find? (fun e => Key.eq e.1 k1)).map (fun e => e.2) with
      | some w => rfl
      | none => simp [hne1]

/-- C12 (as stated, fails): on the empty map, `set(k, 1)` with `k` a float64 NaN
runs, but the following `get(k)` returns not-found instead of `(1, true)`; a
second `set(k, 2)` adds a second entry instead of overwriting, and `get(k)`
still returns not-found; with a key of an unhashable type `set` and `get` stop
with a run-time panic. -/
theorem C12_nan_key_not_found :
    ((NewSafeMapAny : SafeMapAny Nat).set Key.float64NaN 1) =
      some { entries := [(Key.float64NaN, 1)] } ∧
    (({ entries := [(Key.float64NaN, 1)] } : SafeMapAny Nat).get Key.float64NaN) = some none ∧
    (({ entries := [(Key.float64NaN, 1)] } : SafeMapAny Nat).get Key.float64NaN) ≠
      some (some 1) ∧
    (({ entries := [(Key.float64NaN, 1)] } : SafeMapAny Nat).set Key.float64NaN 2) =
      some { entries := [(Key.float64NaN, 1), (Key.float64NaN, 2)] } ∧
    (({ entries := [(Key.float64NaN, 1), (Key.float64NaN, 2)] } : SafeMapAny Nat).get
      Key.float64NaN) = some none ∧
    ((NewSafeMapAny : SafeMapAny Nat).set Key.unhashable 1) = none ∧
    ((NewSafeMapAny : SafeMapAny Nat).get Key.unhashable) = none := by
  refine ⟨rfl, rfl, ?_, rfl, rfl, rfl, rfl⟩
  intro h
  have h1 : (({ entries := [(Key.float64NaN, 1)] } : SafeMapAny Nat).get Key.float64NaN) =
    some none := rfl
  rw [h1] at h
  cases h

/-- C12 (amended): for every map state `m`, every hashable key `k` that is
equal to itself under Go's `==` (every `string` and every `int64` key, so every
key the registry uses), every hashable key `k1` and values `v`, `v1`:
`set(k, v)` runs and afterwards `get(k)` returns `(v, true)`, whether or not `k`
was present before; a second `set(k, v1)` runs and makes `get(k)` return
`(v1, true)`; and if `k1` is different from `k`, `get(k1)` returns after the set
what it returned before. A `get` has no map as result: it only reads. -/
theorem C12_set_then_get {V : Type} (m : SafeMapAny V) (k k1 : Key) (v v1 : V)
    (hk : k.hashable = true) (hrefl : Key.eq k k = true) (hk1 : k1.hashable = true) :
    ∃ m1 m2 : SafeMapAny V, m.set k v = some m1 ∧ m1.set k v1 = some m2 ∧
      m1.get k = some (some v) ∧
      m2.get k = some (some v1) ∧
      (Key.eq k1 k = false → m1.get k1 = m.get k1) := by
  obtain ⟨m1, h1, hg1, hf1⟩ := SafeMapAny.get_after_set m k k1 v hk hk1
  obtain ⟨m2, h2, hg2, _⟩ := SafeMapAny.get_after_set m1 k k1 v1 hk hk1
  exact ⟨m1, m2, h1, h2, hg1 hrefl, hg2 hrefl, hf1⟩

theorem C12_set_then_get_witness :
    (Key.str "alice").hashable = true ∧ Key.eq (Key.str "alice") (Key.str "alice") = true ∧
    (Key.int64 7).hashable = true ∧ Key.eq (Key.int64 7) (Key.str "alice") = false ∧
    ∃ m1 m2 : SafeMapAny Nat,
      ({ entries := [(Key.int64 7, 5), (Key.str "alice", 0)] } : SafeMapAny Nat).set
        (Key.str "alice") 1 = some m1 ∧
      m1.set (Key.str "alice") 2 = some m2 ∧
      m1.get (Key.str "alice") = some (some 1) ∧
      m2.get (Key.str "alice") = some (some 2) ∧
      m1.get (Key.int64 7) = some (some 5) := by
  obtain ⟨m1, m2, h1, h2, h3, h4, h5⟩ := C12_set_then_get
    ({ entries := [(Key.int64 7, 5), (Key.str "alice", 0)] } : SafeMapAny Nat)
    (Key.str "alice") (Key.int64 7) 1 2 rfl (by decide) rfl
  exact ⟨rfl, by decide, rfl, by decide, m1, m2, h1, h2, h3, h4,
    (h5 (by decide)).trans (by decide)⟩

/-- On `string` keys the map with keys of any type obeys the equation that
defines `SafeMap.set` on `SafeMap String V`. -/
theorem SafeMapAny.get_set_str {V : Type} (m : SafeMapAny V) (k k1 : String) (v : V) :
    ∃ m1 : SafeMapAny V, m.set (Key.str k) v = some m1 ∧
      m1.get (Key.str k1) = if k1 = k then some (some v) else m.get (Key.str k1) := by
  obtain ⟨m1, h1, hg, hf⟩ := SafeMapAny.get_after_set m (Key.str k) (Key.str k1) v rfl rfl
  refine ⟨m1, h1, ?_⟩
  by_cases e : k1 = k
  · subst e
    simp only [if_true]
    exact hg (by simp [Key.eq])
  · simp only [e, if_false]
    exact hf (by simp [Key.eq, e])

/-- On `int64` keys likewise. -/
theorem SafeMapAny.get_set_int64 {V : Type} (m : SafeMapAny V) (k k1 : Int) (v : V) :
    ∃ m1 : SafeMapAny V, m.set (Key.int64 k) v = some m1 ∧
      m1.get (Key.int64 k1) = if k1 = k then some (some v) else m.get (Key.int64 k1) := by
  obtain ⟨m1, h1, hg, hf⟩ := SafeMapAny.get_after_set m (Key.int64 k) (Key.int64 k1) v rfl rfl
  refine ⟨m1, h1, ?_⟩
  by_cases e : k1 = k
  · subst e
    simp only [if_true]
    exact hg (by simp [Key.eq])
  · simp only [e, if_false]
    exact hf (by simp [Key.eq, e])

/-- C19: for every map state `m` and key `k`: after `del(k)`, `get(k)` returns
not-found and `get(k1)` is unchanged for every `k1` different from `k`; when `k`
is absent from `m`, `del(k)` leaves the map exactly as it was. -/
theorem C19_del {K V : Type} [DecidableEq K] (m : SafeMap K V) (k : K) :
    (m.del k).get k = none ∧
    (∀ k1 : K, k1 ≠ k → (m.del k).get k1 = m.get k1) ∧
    (m.get k = none → m.del k = m) := by
  refine ⟨by simp [SafeMap.get, SafeMap.del], ?_, ?_⟩
  · intro k1 h
    simp [SafeMap.get, SafeMap.del, h]
  · intro h
    apply SafeMap.ext_get
    intro k1
    by_cases e : k1 = k
    · subst e
      simp [SafeMap.get, SafeMap.del] at h ⊢
      exact h.symm
    · simp [SafeMap.get, SafeMap.del, e]

theorem C19_del_witness :
    ("bob" : String) ≠ "alice" ∧
    (((NewSafeMap : SafeMap String Nat).set "bob" 7).del "alice").get "bob" = some 7 ∧
    ((NewSafeMap : SafeMap String Nat).set "bob" 7).get "alice" = none ∧
    ((NewSafeMap : SafeMap String Nat).set "bob" 7).del "alice" =
      (NewSafeMap : SafeMap String Nat).set "bob" 7 :=
  ⟨by decide,
    ((C19_del ((NewSafeMap : SafeMap String Nat).set "bob" 7) "alice").2.1 "bob"
      (by decide)).trans (by decide),
    by decide,
    (C19_del ((NewSafeMap : SafeMap String Nat).set "bob" 7) "alice").2.2 (by decide)⟩

/-! ## Failure of the random source, and what a successful call changes -/

/-- With the record's own token, an `Action` either succeeds or fails with
ErrUnknownAction. -/
theorem Action_with_token (u : UserManager) (action : String) (uid : Int) (id : String)
    (info : UserInfo) (h : u.uid.get uid = some id) (hr : u.role.get id = some info) :
    (u.Action action uid info.Secure.SessionID).2.2 = none ∨
    (u.Action action uid info.Secure.SessionID).2.2 = some ErrUnknownAction := by
  by_cases h1 : action = "reset"
  · subst h1; left; rw [Action_reset u uid id info h hr]
  · by_cases h2 : action = "ping"
    · subst h2; left; rw [Action_ping u uid id info h hr]
    · right; rw [Action_of_unknown_action u action uid id info h hr h1 h2]

/-- C11: for a registered `id` with the correct password, when the random
source fails with message `msg`, `Login` returns the generator's error
`other msg`, which is neither nil nor ErrUnknownID nor ErrWrongPassword, with
the zero UserInfo, and gives back the registry unchanged; so every later
`Action`, in particular one with the token stored before, behaves as it would
have without this Login. -/
theorem C11_login_token_failure (u : UserManager) (id pw msg : String) (info : UserInfo)
    (h : u.role.get id = some info) (hpw : info.password = pw) :
    (newSecureID 16 (RandRead.fail msg)).2 = some (Error.other msg) ∧
    u.Login id pw (RandRead.fail msg) = (u, UserInfo.zero, some (Error.other msg)) ∧
    (u.Login id pw (RandRead.fail msg)).2.2 ≠ none ∧
    (u.Login id pw (RandRead.fail msg)).2.2 ≠ some ErrUnknownID ∧
    (u.Login id pw (RandRead.fail msg)).2.2 ≠ some ErrWrongPassword ∧
    (∀ (action : String) (N : Int) (sid : String),
      (u.Login id pw (RandRead.fail msg)).1.Action action N sid = u.Action action N sid) := by
  have hl := Login_of_rand_fail u id pw msg info h hpw
  refine ⟨rfl, hl, ?_, ?_, ?_, ?_⟩
  · rw [hl]; simp
  · rw [hl]; simp
  · rw [hl]; simp
  · intro action N sid
    rw [hl]

theorem C11_login_token_failure_witness :
    aliceLoggedIn.role.get "alice" =
      some { password := "pw", UID := 1,
             Secure := { SessionID := "AAAAAAAAAAAAAAAAAAAAAA==", PingCount := 0 } } ∧
    aliceLoggedIn.Login "alice" "pw" (RandRead.fail "no entropy") =
      (aliceLoggedIn, UserInfo.zero, some (Error.other "no entropy")) ∧
    ((aliceLoggedIn.Login "alice" "pw" (RandRead.fail "no entropy")).1.Action "ping" 1
      "AAAAAAAAAAAAAAAAAAAAAA==").2 = (1, none) := by
  have h := C11_login_token_failure aliceLoggedIn "alice" "pw" "no entropy" _
    aliceLoggedIn_role rfl
  refine ⟨aliceLoggedIn_role, h.2.1, ?_⟩
  rw [h.2.2.2.2.2 "ping" 1 "AAAAAAAAAAAAAAAAAAAAAA=="]
  decide

/-- C14: in every reachable registry state, whenever the numeric-id lookup of
`Action` succeeds the identifier lookup succeeds too, and `Action` never
returns ErrUnknownID. -/
theorem C14_action_never_unknown_id (u : UserManager) (hu : Reachable u) (action : String)
    (uid : Int) (sid : String) :
    ((u.getID uid).2 = none → (u.getUserInfo (u.getID uid).1).2 = none) ∧
    (u.Action action uid sid).2.2 ≠ some ErrUnknownID := by
  cases h : u.uid.get uid with
  | none =>
    constructor
    · intro hg
      simp [UserManager.getID, h] at hg
    · rw [Action_of_unknown_uid u action uid sid h]; simp
  | some id =>
    obtain ⟨info, hr⟩ := reachable_uid_has_record u hu uid id h
    constructor
    · intro _
      simp [UserManager.getID, UserManager.getUserInfo, h, hr]
    · by_cases hs : sid = info.Secure.SessionID
      · subst hs
        rcases Action_with_token u action uid id info h hr with e | e
        · rw [e]; simp
        · rw [e]; simp
      · rw [Action_of_wrong_session u action uid sid id info h hr hs]; simp

theorem C14_action_never_unknown_id_witness :
    Reachable aliceLoggedIn ∧ (aliceLoggedIn.getID 1).2 = none ∧
    (aliceLoggedIn.getUserInfo (aliceLoggedIn.getID 1).1).2 = none ∧
    (aliceLoggedIn.Action "ping" 1 "x").2.2 ≠ some ErrUnknownID :=
  ⟨⟨pingHistory 0, rfl⟩, by decide,
    (C14_action_never_unknown_id aliceLoggedIn ⟨pingHistory 0, rfl⟩ "ping" 1 "x").1
      (by decide),
    (C14_action_never_unknown_id aliceLoggedIn ⟨pingHistory 0, rfl⟩ "ping" 1 "x").2⟩

/-- C15: in every registry state, a `Login(id, pw)` that returns a nil error
found a record `info` under `id` and drew a token `s`; it stores under `id` the
record with the password and UID of `info` and the session
`(SessionID = s, PingCount = 0)`, whatever the counter of `info` was, and
returns that record; the record of every other identifier, the numeric-id
index and `seq` are as before. -/
theorem C15_login_frame (u : UserManager) (id pw : String) (rnd : RandRead)
    (h : (u.Login id pw rnd).2.2 = none) :
    ∃ (info : UserInfo) (s : String), u.role.get id = some info ∧
      newSecureID 16 rnd = (s, none) ∧
      (u.Login id pw rnd).1.role.get id =
        some { password := info.password, UID := info.UID,
               Secure := { SessionID := s, PingCount := 0 } } ∧
      (u.Login id pw rnd).2.1 =
        { password := info.password, UID := info.UID,
          Secure := { SessionID := s, PingCount := 0 } } ∧
      (∀ id1 : String, id1 ≠ id → (u.Login id pw rnd).1.role.get id1 = u.role.get id1) ∧
      (u.Login id pw rnd).1.uid = u.uid ∧
      (u.Login id pw rnd).1.seq = u.seq := by
  rcases Login_cases u id pw rnd with ⟨_, hbad⟩ | ⟨info, bytes, hrnd, hr, _, heq⟩
  · exact absurd h hbad
  · subst hrnd
    refine ⟨info, (newSecureID 16 (RandRead.fill bytes)).1, hr, rfl, ?_, ?_, ?_, ?_, ?_⟩
    · rw [heq]; exact SafeMap.get_set_self _ _ _
    · rw [heq]
    · intro id1 hne
      rw [heq]; exact SafeMap.get_set_ne _ _ _ _ hne
    · rw [heq]
    · rw [heq]

theorem C15_login_frame_witness :
    ((exec NewUserManager (pingHistory 2)).Login "alice" "pw"
      (RandRead.fill (fun _ => 255))).2.2 = none ∧
    ((exec NewUserManager (pingHistory 2)).role.get "alice").map
      (fun i => i.Secure.PingCount) = some 2 ∧
    ∃ (info : UserInfo) (s : String),
      (exec NewUserManager (pingHistory 2)).role.get "alice" = some info ∧
      newSecureID 16 (RandRead.fill (fun _ => 255)) = (s, none) ∧
      ((exec NewUserManager (pingHistory 2)).Login "alice" "pw"
        (RandRead.fill (fun _ => 255))).1.role.get "alice" =
        some { password := info.password, UID := info.UID,
               Secure := { SessionID := s, PingCount := 0 } } :=
  ⟨by decide, by decide,
    (C15_login_frame (exec NewUserManager (pingHistory 2)) "alice" "pw"
      (RandRead.fill (fun _ => 255)) (by decide)).imp
      (fun _ hinfo => hinfo.imp (fun _ hs => ⟨hs.1, hs.2.1, hs.2.2.1⟩))⟩

/-- C16: in every registry state (reachable or not), an `Action(action, N, T)`
that returns a nil error found `N ↦ id` in the numeric-id index and under `id`
a record `info` with token `T`; afterwards the record of `id` has the password,
UID and token of `info` and the returned value as its counter, the record of
every other identifier, the numeric-id index and `seq` are as before, and the
next `Action` with `N` and `T` does not fail with ErrWrongSessionID. -/
theorem C16_action_frame (u : UserManager) (action : String) (N : Int) (T : String)
    (h : (u.Action action N T).2.2 = none) :
    ∃ (id : String) (info : UserInfo), u.uid.get N = some id ∧
      u.role.get id = some info ∧ info.Secure.SessionID = T ∧
      (u.Action action N T).1.role.get id =
        some { password := info.password, UID := info.UID,
               Secure := { SessionID := T, PingCount := (u.Action action N T).2.1 } } ∧
      (∀ id1 : String, id1 ≠ id → (u.Action action N T).1.role.get id1 = u.role.get id1) ∧
      (u.Action action N T).1.uid = u.uid ∧
      (u.Action action N T).1.seq = u.seq ∧
      (∀ next : String,
        ((u.Action action N T).1.Action next N T).2.2 ≠ some ErrWrongSessionID) := by
  rcases Action_cases u action N T with ⟨_, hbad⟩ | ⟨id, info, n, hN, hr, hT, _, _, heq⟩
  · exact absurd h hbad
  · subst hT
    have hrec : (u.Action action N info.Secure.SessionID).1.role.get id =
        some { password := info.password, UID := info.UID,
               Secure := { SessionID := info.Secure.SessionID, PingCount := n } } := by
      rw [heq]; exact SafeMap.get_set_self _ _ _
    have huid : (u.Action action N info.Secure.SessionID).1.uid = u.uid := by rw [heq]
    refine ⟨id, info, hN, hr, rfl, ?_, ?_, huid, ?_, ?_⟩
    · rw [hrec, heq]
    · intro id1 hne
      rw [heq]; exact SafeMap.get_set_ne _ _ _ _ hne
    · rw [heq]
    · intro next
      have hN1 : (u.Action action N info.Secure.SessionID).1.uid.get N = some id := by
        rw [huid]; exact hN
      rcases Action_with_token _ next N id _ hN1 hrec with e | e
      · rw [e]; simp
      · rw [e]; simp

theorem C16_action_frame_witness :
    (aliceLoggedIn.Action "ping" 1 "AAAAAAAAAAAAAAAAAAAAAA==").2.2 = none ∧
    ∃ (id : String) (info : UserInfo), aliceLoggedIn.uid.get 1 = some id ∧
      aliceLoggedIn.role.get id = some info ∧
      info.Secure.SessionID = "AAAAAAAAAAAAAAAAAAAAAA==" ∧
      (aliceLoggedIn.Action "ping" 1 "AAAAAAAAAAAAAAAAAAAAAA==").1.role.get id =
        some { password := info.password, UID := info.UID,
               Secure := { SessionID := "AAAAAAAAAAAAAAAAAAAAAA==",
                           PingCount :=
                            (aliceLoggedIn.Action "ping" 1 "AAAAAAAAAAAAAAAAAAAAAA==").2.1 } } :=
  ⟨by decide,
    (C16_action_frame aliceLoggedIn "ping" 1 "AAAAAAAAAAAAAAAAAAAAAA==" (by decide)).imp
      (fun _ hid => hid.imp (fun _ hi => ⟨hi.1, hi.2.1, hi.2.2.1, hi.2.2.2.1⟩))⟩

/-! ## The sign of the counter -/

/-- While the counters are between 0 and `b` and `b` plus the number of ping
calls to come stays an `int64`, the counters stay between 0 and that sum. -/
theorem exec_pingCount_bound (cs : List Call) :
    ∀ (u : UserManager) (b : Nat),
      (∀ (id : String) (info : UserInfo), u.role.get id = some info →
        0 ≤ info.Secure.PingCount ∧ info.Secure.PingCount ≤ (b : Int)) →
      ((b + pingCalls cs : Nat) : Int) ≤ maxInt64 →
      ∀ (id : String) (info : UserInfo), (exec u cs).role.get id = some info →
        0 ≤ info.Secure.PingCount ∧ info.Secure.PingCount ≤ ((b + pingCalls cs : Nat) : Int) := by
  induction cs with
  | nil => intro u b hb _ id info h; simpa [pingCalls] using hb id info h
  | cons c cs ih =>
    intro u b hb hmax
    cases c with
    | signup id1 pw =>
      simp only [pingCalls] at hmax ⊢
      refine ih (step u (Call.signup id1 pw)) b ?_ hmax
      intro id info h
      cases hr : u.role.get id1 with
      | none =>
        simp only [step, Signup_of_absent u id1 pw hr, SafeMap.get_set] at h
        split at h
        · cases h
          exact ⟨le_refl _, Int.natCast_nonneg b⟩
        · exact hb id info h
      | some info0 =>
        simp only [step, Signup_of_present u id1 pw info0 hr] at h
        exact hb id info h
    | login id1 pw rnd =>
      simp only [pingCalls] at hmax ⊢
      refine ih (step u (Call.login id1 pw rnd)) b ?_ hmax
      intro id info h
      rcases Login_cases u id1 pw rnd with ⟨h1, _⟩ | ⟨info0, bytes, _, hr, _, h1⟩
      · simp only [step, h1] at h
        exact hb id info h
      · simp only [step, h1, SafeMap.get_set] at h
        split at h
        · cases h
          exact ⟨le_refl _, Int.natCast_nonneg b⟩
        · exact hb id info h
    | action a uid sid =>
      by_cases hp : a = "ping"
      · subst hp
        have e : pingCalls (Call.action "ping" uid sid :: cs) = 1 + pingCalls cs := by
          simp [pingCalls, ACTION_PING]
        rw [e] at hmax ⊢
        rw [show b + (1 + pingCalls cs) = (b + 1) + pingCalls cs by omega] at hmax ⊢
        refine ih (step u (Call.action "ping" uid sid)) (b + 1) ?_ hmax
        intro id info h
        have hold : ∀ info1 : UserInfo, u.role.get id = some info1 →
            0 ≤ info1.Secure.PingCount ∧ info1.Secure.PingCount ≤ ((b + 1 : Nat) : Int) := by
          intro info1 h1
          have := hb id info1 h1
          push_cast
          omega
        cases hu : u.uid.get uid with
        | none =>
          simp only [step, Action_of_unknown_uid u "ping" uid sid hu] at h
          exact hold info h
        | some id1 =>
          cases hr : u.role.get id1 with
          | none =>
            simp only [step, Action_of_unknown_id u "ping" uid sid id1 hu hr] at h
            exact hold info h
          | some info0 =>
            by_cases hs : sid = info0.Secure.SessionID
            · subst hs
              simp only [step, Action_ping u uid id1 info0 hu hr, SafeMap.get_set] at h
              split at h
              · cases h
                have h0 := hb id1 info0 hr
                have hw : wrapInt64 (info0.Secure.PingCount + 1) =
                    info0.Secure.PingCount + 1 := by
                  apply wrapInt64_of_range
                  · unfold minInt64; omega
                  · unfold maxInt64 at *; push_cast at hmax; omega
                show 0 ≤ wrapInt64 (info0.Secure.PingCount + 1) ∧
                  wrapInt64 (info0.Secure.PingCount + 1) ≤ ((b + 1 : Nat) : Int)
                rw [hw]
                push_cast
                omega
              · exact hold info h
            · simp only [step, Action_of_wrong_session u "ping" uid sid id1 info0 hu hr hs] at h
              exact hold info h
      · have e : pingCalls (Call.action a uid sid :: cs) = pingCalls cs := by
          simp [pingCalls, ACTION_PING, hp]
        rw [e] at hmax ⊢
        refine ih (step u (Call.action a uid sid)) b ?_ hmax
        intro id info h
        cases hu : u.uid.get uid with
        | none =>
          simp only [step, Action_of_unknown_uid u a uid sid hu] at h
          exact hb id info h
        | some id1 =>
          cases hr : u.role.get id1 with
          | none =>
            simp only [step, Action_of_unknown_id u a uid sid id1 hu hr] at h
            exact hb id info h
          | some info0 =>
            by_cases hs : sid = info0.Secure.SessionID
            · subst hs
              by_cases h1 : a = "reset"
              · subst h1
                simp only [step, Action_reset u uid id1 info0 hu hr, SafeMap.get_set] at h
                split at h
                · cases h
                  exact ⟨le_refl _, Int.natCast_nonneg b⟩
                · exact hb id info h
              · simp only [step, Action_of_unknown_action u a uid id1 info0 hu hr h1 hp] at h
                exact hb id info h
            · simp only [step, Action_of_wrong_session u a uid sid id1 info0 hu hr hs] at h
              exact hb id info h

/-- C17 (as stated, fails): in the reachable state `pingWrappedState`, reached
by Signup, Login and `2^63` pings, the stored PingCount of account `alice` is
`-2^63`, a negative `int64`. -/
theorem C17_negative_pingCount :
    Reachable pingWrappedState ∧
    pingWrappedState.role.get "alice" =
      some { password := "pw", UID := 1,
             Secure := { SessionID := "AAAAAAAAAAAAAAAAAAAAAA==",
                         PingCount := -9223372036854775808 } } ∧
    (-9223372036854775808 : Int) < 0 := by
  have h := (exec_pingHistory_state (9223372036854775807 + 1)).2
  have hw : wrapInt64 (((9223372036854775807 + 1 : Nat)) : Int) = -9223372036854775808 := by
    decide
  rw [hw] at h
  exact ⟨⟨pingHistory (9223372036854775807 + 1), rfl⟩, h, by decide⟩

/-- C17 (amended): in every registry state reached from `NewUserManager` by a
history with at most `2^63 - 1` ping calls, the PingCount of every stored
session is non-negative, and at most the number of ping calls. -/
theorem C17_pingCount_nonneg (cs : List Call) (hmax : (pingCalls cs : Int) ≤ maxInt64)
    (id : String) (info : UserInfo) (h : (exec NewUserManager cs).role.get id = some info) :
    0 ≤ info.Secure.PingCount ∧ info.Secure.PingCount ≤ (pingCalls cs : Int) := by
  have := exec_pingCount_bound cs NewUserManager 0
    (by
      intro id1 info1 h1
      simp [NewUserManager, NewSafeMap, SafeMap.get] at h1)
    (by simpa using hmax) id info h
  simpa using this

theorem C17_pingCount_nonneg_witness :
    (pingCalls (pingHistory 2) : Int) ≤ maxInt64 ∧
    (exec NewUserManager (pingHistory 2)).role.get "alice" =
      some { password := "pw", UID := 1,
             Secure := { SessionID := "AAAAAAAAAAAAAAAAAAAAAA==", PingCount := 2 } } ∧
    (0 : Int) ≤ 2 ∧ (2 : Int) ≤ (pingCalls (pingHistory 2) : Int) :=
  ⟨by decide, by decide,
    C17_pingCount_nonneg (pingHistory 2) (by decide) "alice"
      { password := "pw", UID := 1,
        Secure := { SessionID := "AAAAAAAAAAAAAAAAAAAAAA==", PingCount := 2 } } (by decide)⟩

/-! ## The session token -/

theorem encodeStd_getD_injective :
    ∀ i j : Fin 64, encodeStd.getD i.val '=' = encodeStd.getD j.val '=' → i = j := by
  decide

/-- Two numbers with the same character have the same low six bits. -/
theorem encodeSextet_eq (a b : Nat) (h : encodeSextet a = encodeSextet b) :
    a % 64 = b % 64 := by
  have := encodeStd_getD_injective ⟨a % 64, Nat.mod_lt _ (by decide)⟩
    ⟨b % 64, Nat.mod_lt _ (by decide)⟩ h
  exact congrArg Fin.val this

/-- The four characters of a group of three bytes determine the bytes. -/
theorem encode_three_injective (a0 a1 a2 b0 b1 b2 : Fin 256)
    (h1 : encodeSextet ((a0.val * 65536 + a1.val * 256 + a2.val) / 262144) =
      encodeSextet ((b0.val * 65536 + b1.val * 256 + b2.val) / 262144))
    (h2 : encodeSextet ((a0.val * 65536 + a1.val * 256 + a2.val) / 4096) =
      encodeSextet ((b0.val * 65536 + b1.val * 256 + b2.val) / 4096))
    (h3 : encodeSextet ((a0.val * 65536 + a1.val * 256 + a2.val) / 64) =
      encodeSextet ((b0.val * 65536 + b1.val * 256 + b2.val) / 64))
    (h4 : encodeSextet (a0.val * 65536 + a1.val * 256 + a2.val) =
      encodeSextet (b0.val * 65536 + b1.val * 256 + b2.val)) :
    a0 = b0 ∧ a1 = b1 ∧ a2 = b2 := by
  have e1 := encodeSextet_eq _ _ h1
  have e2 := encodeSextet_eq _ _ h2
  have e3 := encodeSextet_eq _ _ h3
  have e4 := encodeSextet_eq _ _ h4
  have := a0.isLt
  have := a1.isLt
  have := a2.isLt
  have := b0.isLt
  have := b1.isLt
  have := b2.isLt
  refine ⟨Fin.ext ?_, Fin.ext ?_, Fin.ext ?_⟩ <;> omega

/-- The two characters of a last single byte determine the byte. -/
theorem encode_one_injective (a0 b0 : Fin 256)
    (h1 : encodeSextet (a0.val * 65536 / 262144) = encodeSextet (b0.val * 65536 / 262144))
    (h2 : encodeSextet (a0.val * 65536 / 4096) = encodeSextet (b0.val * 65536 / 4096)) :
    a0 = b0 := by
  have e1 := encodeSextet_eq _ _ h1
  have e2 := encodeSextet_eq _ _ h2
  have := a0.isLt
  have := b0.isLt
  exact Fin.ext (by omega)

/-- The 24 characters that `encodeToChars` gives for sixteen bytes. -/
theorem encodeToChars_sixteen (bytes : Nat → Fin 256) :
    encodeToChars ((List.range 16).map bytes) =
      [encodeSextet (((bytes 0).val * 65536 + (bytes 1).val * 256 + (bytes 2).val) / 262144),
       encodeSextet (((bytes 0).val * 65536 + (bytes 1).val * 256 + (bytes 2).val) / 4096),
       encodeSextet (((bytes 0).val * 65536 + (bytes 1).val * 256 + (bytes 2).val) / 64),
       encodeSextet ((bytes 0).val * 65536 + (bytes 1).val * 256 + (bytes 2).val),
       encodeSextet (((bytes 3).val * 65536 + (bytes 4).val * 256 + (bytes 5).val) / 262144),
       encodeSextet (((bytes 3).val * 65536 + (bytes 4).val * 256 + (bytes 5).val) / 4096),
       encodeSextet (((bytes 3).val * 65536 + (bytes 4).val * 256 + (bytes 5).val) / 64),
       encodeSextet ((bytes 3).val * 65536 + (bytes 4).val * 256 + (bytes 5).val),
       encodeSextet (((bytes 6).val * 65536 + (bytes 7).val * 256 + (bytes 8).val) / 262144),
       encodeSextet (((bytes 6).val * 65536 + (bytes 7).val * 256 + (bytes 8).val) / 4096),
       encodeSextet (((bytes 6).val * 65536 + (bytes 7).val * 256 + (bytes 8).val) / 64),
       encodeSextet ((bytes 6).val * 65536 + (bytes 7).val * 256 + (bytes 8).val),
       encodeSextet (((bytes 9).val * 65536 + (bytes 10).val * 256 + (bytes 11).val) / 262144),
       encodeSextet (((bytes 9).val * 65536 + (bytes 10).val * 256 + (bytes 11).val) / 4096),
       encodeSextet (((bytes 9).val * 65536 + (bytes 10).val * 256 + (bytes 11).val) / 64),
       encodeSextet ((bytes 9).val * 65536 + (bytes 10).val * 256 + (bytes 11).val),
       encodeSextet (((bytes 12).val * 65536 + (bytes 13).val * 256 + (bytes 14).val) / 262144),
       encodeSextet (((bytes 12).val * 65536 + (bytes 13).val * 256 + (bytes 14).val) / 4096),
       encodeSextet (((bytes 12).val * 65536 + (bytes 13).val * 256 + (bytes 14).val) / 64),
       encodeSextet ((bytes 12).val * 65536 + (bytes 13).val * 256 + (bytes 14).val),
       encodeSextet ((bytes 15).val * 65536 / 262144),
       encodeSextet ((bytes 15).val * 65536 / 4096), '=', '='] :=
  rfl

/-- Sixteen-byte inputs with the same characters are the same. -/
theorem encodeToChars_sixteen_injective (bytes bytes1 : Nat → Fin 256)
    (h : encodeToChars ((List.range 16).map bytes1) = encodeToChars ((List.range 16).map bytes)) :
    ∀ i : Nat, i < 16 → bytes1 i = bytes i := by
  rw [encodeToChars_sixteen, encodeToChars_sixteen] at h
  simp only [List.cons.injEq, and_true] at h
  obtain ⟨c0, c1, c2, c3, c4, c5, c6, c7, c8, c9, c10, c11, c12, c13, c14, c15, c16, c17,
    c18, c19, c20, c21⟩ := h
  have g0 := encode_three_injective _ _ _ _ _ _ c0 c1 c2 c3
  have g1 := encode_three_injective _ _ _ _ _ _ c4 c5 c6 c7
  have g2 := encode_three_injective _ _ _ _ _ _ c8 c9 c10 c11
  have g3 := encode_three_injective _ _ _ _ _ _ c12 c13 c14 c15
  have g4 := encode_three_injective _ _ _ _ _ _ c16 c17 c18 c19
  have g5 := encode_one_injective _ _ c20 c21
  intro i hi
  interval_cases i
  · exact g0.1
  · exact g0.2.1
  · exact g0.2.2
  · exact g1.1
  · exact g1.2.1
  · exact g1.2.2
  · exact g2.1
  · exact g2.2.1
  · exact g2.2.2
  · exact g3.1
  · exact g3.2.1
  · exact g3.2.2
  · exact g4.1
  · exact g4.2.1
  · exact g4.2.2
  · exact g5

theorem sextets_three (b0 b1 b2 : Fin 256) (rest : List (Fin 256)) :
    sextets ((b0 :: b1 :: b2 :: rest).map byteBits).flatten =
      (b0.val * 65536 + b1.val * 256 + b2.val) / 262144 % 64 ::
      (b0.val * 65536 + b1.val * 256 + b2.val) / 4096 % 64 ::
      (b0.val * 65536 + b1.val * 256 + b2.val) / 64 % 64 ::
      (b0.val * 65536 + b1.val * 256 + b2.val) % 64 ::
      sextets (rest.map byteBits).flatten := by
  have := b0.isLt
  have := b1.isLt
  have := b2.isLt
  simp only [List.map_cons, List.flatten_cons, byteBits, List.cons_append, List.nil_append,
    sextets, bitsValue, List.foldl_cons, List.foldl_nil]
  congr 1
  · omega
  congr 1
  · omega
  congr 1
  · omega
  congr 1
  omega

theorem sextets_one (b0 : Fin 256) :
    sextets ([b0].map byteBits).flatten =
      [b0.val * 65536 / 262144 % 64, b0.val * 65536 / 4096 % 64] := by
  have := b0.isLt
  simp only [List.map_cons, List.map_nil, List.flatten_cons, List.flatten_nil, byteBits,
    List.cons_append, List.nil_append, List.append_nil, sextets, bitsValue, List.foldl_cons,
    List.foldl_nil, List.take]
  congr 1
  · omega
  congr 1
  omega

theorem sextets_two (b0 b1 : Fin 256) :
    sextets ([b0, b1].map byteBits).flatten =
      [(b0.val * 65536 + b1.val * 256) / 262144 % 64,
       (b0.val * 65536 + b1.val * 256) / 4096 % 64,
       (b0.val * 65536 + b1.val * 256) / 64 % 64] := by
  have := b0.isLt
  have := b1.isLt
  simp only [List.map_cons, List.map_nil, List.flatten_cons, List.flatten_nil, byteBits,
    List.cons_append, List.nil_append, List.append_nil, sextets, bitsValue, List.foldl_cons,
    List.foldl_nil, List.take]
  congr 1
  · omega
  congr 1
  · omega
  congr 1
  omega

/-- The encoder that follows the Go library computes standard padded base64,
for byte lists of every length. -/
theorem encodeToChars_eq_base64Standard (bs : List (Fin 256)) :
    encodeToChars bs = base64Standard bs := by
  induction bs using encodeToChars.induct with
  | case1 => rfl
  | case2 b0 =>
    unfold base64Standard
    rw [sextets_one]
    rfl
  | case3 b0 b1 =>
    unfold base64Standard
    rw [sextets_two]
    rfl
  | case4 b0 b1 b2 rest ih =>
    unfold base64Standard
    rw [sextets_three]
    simp only [encodeToChars, ih, base64Standard, encodeSextet, List.map_cons,
      List.length_cons, List.cons_append]
    have hlen : ∀ n : Nat, (4 - (n + 1 + 1 + 1 + 1) % 4) % 4 = (4 - n % 4) % 4 := by
      intro n; omega
    rw [hlen]

theorem base64Standard_examples :
    base64Standard [102] = ['Z', 'g', '=', '='] ∧
    base64Standard [102, 111] = ['Z', 'm', '8', '='] ∧
    base64Standard [102, 111, 111] = ['Z', 'm', '9', 'v'] ∧
    base64Standard [102, 111, 111, 98, 97, 114] = ['Z', 'm', '9', 'v', 'Y', 'm', 'F', 'y'] := by
  decide

/-- C18: for every sixteen bytes delivered by the random source,
`newSecureID(16)` returns, with a nil error, the standard padded base64
encoding of those bytes; the token has length 24 and is not the empty string;
sixteen bytes that differ somewhere give a different token; and this token is
the SessionID that a successful `Login` returns. -/
theorem C18_token_is_base64 (bytes : Nat → Fin 256) :
    newSecureID 16 (RandRead.fill bytes) =
      (String.mk (base64Standard ((List.range 16).map bytes)), none) ∧
    (newSecureID 16 (RandRead.fill bytes)).1.length = 24 ∧
    (newSecureID 16 (RandRead.fill bytes)).1 ≠ "" ∧
    (∀ (bytes1 : Nat → Fin 256) (i : Nat), i < 16 → bytes1 i ≠ bytes i →
      (newSecureID 16 (RandRead.fill bytes1)).1 ≠ (newSecureID 16 (RandRead.fill bytes)).1) ∧
    (∀ (u : UserManager) (id pw : String),
      (u.Login id pw (RandRead.fill bytes)).2.2 = none →
      (u.Login id pw (RandRead.fill bytes)).2.1.Secure.SessionID =
        (newSecureID 16 (RandRead.fill bytes)).1) := by
  have hlen : (newSecureID 16 (RandRead.fill bytes)).1.length = 24 := by
    show (String.mk (encodeToChars ((List.range 16).map bytes))).length = 24
    rw [encodeToChars_sixteen]
    rfl
  refine ⟨?_, hlen, ?_, ?_, ?_⟩
  · show (String.mk (encodeToChars ((List.range 16).map bytes)), none) = _
    rw [encodeToChars_eq_base64Standard]
  · intro h
    rw [h] at hlen
    exact absurd hlen (by decide)
  · intro bytes1 i hi hne h
    have hl : encodeToChars ((List.range 16).map bytes1) =
        encodeToChars ((List.range 16).map bytes) := congrArg String.data h
    exact hne (encodeToChars_sixteen_injective bytes bytes1 hl i hi)
  · intro u id pw hok
    rcases Login_cases u id pw (RandRead.fill bytes) with ⟨_, hbad⟩ | ⟨info, b1, hb, _, _, heq⟩
    · exact absurd hok hbad
    · cases hb
      rw [heq]

theorem C18_token_is_base64_witness :
    (3 : Nat) < 16 ∧
    ((fun i : Nat => if i = 3 then (1 : Fin 256) else 0) 3) ≠ (fun _ : Nat => (0 : Fin 256)) 3 ∧
    (newSecureID 16 (RandRead.fill (fun i : Nat => if i = 3 then (1 : Fin 256) else 0))).1 ≠
      (newSecureID 16 (RandRead.fill (fun _ => 0))).1 ∧
    ((NewUserManager.Signup "alice" "pw").1.Login "alice" "pw"
      (RandRead.fill (fun _ => 0))).2.2 = none ∧
    ((NewUserManager.Signup "alice" "pw").1.Login "alice" "pw"
      (RandRead.fill (fun _ => 0))).2.1.Secure.SessionID =
        (newSecureID 16 (RandRead.fill (fun _ => 0))).1 ∧
    (newSecureID 16 (RandRead.fill (fun _ => 0))).1 = "AAAAAAAAAAAAAAAAAAAAAA==" :=
  ⟨by decide, by decide,
    (C18_token_is_base64 (fun _ => 0)).2.2.2.1
      (fun i : Nat => if i = 3 then (1 : Fin 256) else 0) 3 (by decide) (by decide),
    by decide,
    (C18_token_is_base64 (fun _ => 0)).2.2.2.2 (NewUserManager.Signup "alice" "pw").1
      "alice" "pw" (by decide),
    by decide⟩

/-! ## Consistency of the two indices -/

/-- Replacing a record by one with the same numeric id keeps the indices
consistent. -/
theorem consistent_update (k : Nat) (u : UserManager) (id : String) (info info1 : UserInfo)
    (hc : Consistent k u) (hr : u.role.get id = some info) (hU : info1.UID = info.UID) :
    Consistent k { u with role := u.role.set id info1 } := by
  obtain ⟨hseq, hidx, hrange⟩ := hc
  refine ⟨hseq, ?_, ?_⟩
  · intro n id1
    show u.uid.get n = some id1 ↔
      ∃ i : UserInfo, (u.role.set id info1).get id1 = some i ∧ i.UID = n
    rw [SafeMap.get_set]
    by_cases e : id1 = id
    · subst e
      simp only [if_true, Option.some.injEq]
      rw [hidx n id1]
      constructor
      · rintro ⟨i, hi, hn⟩
        rw [hr] at hi; cases hi
        exact ⟨info1, rfl, hU.trans hn⟩
      · rintro ⟨i, rfl, hn⟩
        exact ⟨info, hr, hU.symm.trans hn⟩
    · simp only [e, if_false]
      exact hidx n id1
  · intro id1 i hi
    change (u.role.set id info1).get id1 = some i at hi
    rw [SafeMap.get_set] at hi
    by_cases e : id1 = id
    · simp only [e, if_true, Option.some.injEq] at hi
      subst hi
      rw [hU]; exact hrange id info hr
    · simp only [e, if_false] at hi
      exact hrange id1 i hi

/-- A successful Signup below the `int64` bound keeps the indices consistent
and moves the counter from `k` to `k + 1`. -/
theorem consistent_signup (k : Nat) (u : UserManager) (id pw : String)
    (hc : Consistent k u) (hr : u.role.get id = none) (hk : ((k + 1 : Nat) : Int) ≤ maxInt64) :
    Consistent (k + 1) (u.Signup id pw).1 := by
  obtain ⟨hseq, hidx, hrange⟩ := hc
  have hw : wrapInt64 (u.seq + 1) = ((k + 1 : Nat) : Int) := by
    rw [hseq]
    have : wrapInt64 ((k : Int) + 1) = (k : Int) + 1 := by
      apply wrapInt64_of_range
      · unfold minInt64; omega
      · unfold maxInt64 at *; push_cast at hk; omega
    rw [this]; simp
  rw [Signup_of_absent u id pw hr, hw]
  refine ⟨rfl, ?_, ?_⟩
  · intro n id1
    show (u.uid.set ((k + 1 : Nat) : Int) id).get n = some id1 ↔
      ∃ i : UserInfo, (u.role.set id _).get id1 = some i ∧ i.UID = n
    rw [SafeMap.get_set, SafeMap.get_set]
    by_cases e : id1 = id
    · subst e
      simp only [if_true, Option.some.injEq]
      by_cases en : n = ((k + 1 : Nat) : Int)
      · rw [if_pos en]
        exact ⟨fun _ => ⟨_, rfl, en.symm⟩, fun _ => rfl⟩
      · rw [if_neg en]
        constructor
        · intro h
          obtain ⟨i, hi, _⟩ := (hidx n id1).1 h
          rw [hr] at hi; cases hi
        · rintro ⟨i, rfl, hn⟩
          exact absurd hn.symm en
    · simp only [e, if_false]
      by_cases en : n = ((k + 1 : Nat) : Int)
      · simp only [en, if_true, Option.some.injEq]
        constructor
        · intro h; exact absurd h.symm e
        · rintro ⟨i, hi, hn⟩
          have := (hrange id1 i hi).2
          push_cast at hn
          omega
      · simp only [en, if_false]
        exact hidx n id1
  · intro id1 i hi
    change (u.role.set id _).get id1 = some i at hi
    rw [SafeMap.get_set] at hi
    by_cases e : id1 = id
    · simp only [e, if_true, Option.some.injEq] at hi
      subst hi
      constructor
      · show (1 : Int) ≤ ((k + 1 : Nat) : Int)
        push_cast; omega
      · exact le_refl _
    · simp only [e, if_false] at hi
      have := hrange id1 i hi
      push_cast
      omega

theorem consistent_step_other (k : Nat) (u : UserManager) (c : Call) (hc : Consistent k u)
    (hns : ∀ id pw : String, c = Call.signup id pw → (u.Signup id pw).2 ≠ none) :
    Consistent k (step u c) := by
  cases c with
  | signup id pw =>
    have := Signup_failed u id pw (hns id pw rfl)
    simp only [step, this]; exact hc
  | login id pw rnd =>
    rcases Login_cases u id pw rnd with ⟨h1, _⟩ | ⟨info, bytes, _, hr, _, h1⟩
    · simp only [step, h1]; exact hc
    · simp only [step, h1]
      exact consistent_update k u id info _ hc hr rfl
  | action a uid sid =>
    rcases Action_cases u a uid sid with ⟨h1, _⟩ | ⟨id, info, n, _, hr, _, _, _, h1⟩
    · simp only [step, h1]; exact hc
    · simp only [step, h1]
      exact consistent_update k u id info _ hc hr rfl

/-- The indices stay consistent along a history as long as the number of
successful Signups stays below `2^63`. -/
theorem exec_consistent (cs : List Call) :
    ∀ (u : UserManager) (k : Nat), Consistent k u →
      ((k + okSignups u cs : Nat) : Int) ≤ maxInt64 →
      Consistent (k + okSignups u cs) (exec u cs) := by
  induction cs with
  | nil => intro u k hc _; simpa [exec, okSignups] using hc
  | cons c cs ih =>
    intro u k hc hb
    cases c with
    | signup id pw =>
      by_cases hok : (u.Signup id pw).2 = none
      · have hr := (Signup_ok_iff u id pw).1 hok
        simp only [okSignups, hok, if_true] at hb ⊢
        rw [show k + (1 + okSignups (u.Signup id pw).1 cs)
              = k + 1 + okSignups (u.Signup id pw).1 cs by omega] at hb ⊢
        have hk : ((k + 1 : Nat) : Int) ≤ maxInt64 := by
          push_cast at hb ⊢
          omega
        exact ih (u.Signup id pw).1 (k + 1) (consistent_signup k u id pw hc hr hk) hb
      · simp only [okSignups, hok, if_false, Nat.zero_add] at hb ⊢
        refine ih (u.Signup id pw).1 k ?_ hb
        have := consistent_step_other k u (Call.signup id pw) hc
          (by intro id1 pw1 e; cases e; exact hok)
        simpa [step] using this
    | login id pw rnd =>
      simp only [okSignups] at hb ⊢
      refine ih (u.Login id pw rnd).1 k ?_ hb
      have := consistent_step_other k u (Call.login id pw rnd) hc
        (by intro id1 pw1 e; cases e)
      simpa [step] using this
    | action a uid sid =>
      simp only [okSignups] at hb ⊢
      refine ih (u.Action a uid sid).1 k ?_ hb
      have := consistent_step_other k u (Call.action a uid sid) hc
        (by intro id1 pw1 e; cases e)
      simpa [step] using this

theorem consistent_new : Consistent 0 NewUserManager := by
  refine ⟨rfl, ?_, ?_⟩
  · intro n id
    simp [NewUserManager, NewSafeMap, SafeMap.get]
  · intro id info h
    simp [NewUserManager, NewSafeMap, SafeMap.get] at h

/-- In a consistent registry whose numeric-id index has the keys `1..k`:
records have pairwise different numeric ids, these are exactly `1..k`, and
there are `k` registered identifiers. -/
theorem consistent_count (k : Nat) (u : UserManager) (hc : Consistent k u)
    (hd : ∀ n : Int, u.uid.get n ≠ none ↔ (1 ≤ n ∧ n ≤ (k : Int))) :
    (∀ (id1 id2 : String) (info1 info2 : UserInfo), u.role.get id1 = some info1 →
      u.role.get id2 = some info2 → info1.UID = info2.UID → id1 = id2) ∧
    assignedUIDs u = Set.Icc 1 (k : Int) ∧
    (registeredIds u).Finite ∧
    (registeredIds u).ncard = k := by
  obtain ⟨_, hidx, hrange⟩ := hc
  have hinj : ∀ (id1 id2 : String) (info1 info2 : UserInfo), u.role.get id1 = some info1 →
      u.role.get id2 = some info2 → info1.UID = info2.UID → id1 = id2 := by
    intro id1 id2 info1 info2 h1 h2 hU
    have e1 := (hidx info1.UID id1).2 ⟨info1, h1, rfl⟩
    have e2 := (hidx info1.UID id2).2 ⟨info2, h2, hU.symm⟩
    rw [e1] at e2
    exact Option.some.inj e2
  have hassigned : assignedUIDs u = Set.Icc 1 (k : Int) := by
    ext n
    constructor
    · rintro ⟨id, info, hr, rfl⟩
      exact hrange id info hr
    · intro hn
      have hne := (hd n).2 hn
      cases hg : u.uid.get n with
      | none => exact absurd hg hne
      | some id =>
        obtain ⟨info, hr, hU⟩ := (hidx n id).1 hg
        exact ⟨id, info, hr, hU⟩
  have himage : registeredIds u =
      Set.image (fun n : Int => (u.uid.get n).getD "") (Set.Icc 1 (k : Int)) := by
    ext id
    constructor
    · rintro ⟨info, hr⟩
      refine ⟨info.UID, hrange id info hr, ?_⟩
      show (u.uid.get info.UID).getD "" = id
      rw [(hidx info.UID id).2 ⟨info, hr, rfl⟩]
      rfl
    · rintro ⟨n, hn, hg⟩
      have hne := (hd n).2 hn
      cases hgn : u.uid.get n with
      | none => exact absurd hgn hne
      | some id1 =>
        have : id1 = id := by
          have hg1 : (u.uid.get n).getD "" = id := hg
          rw [hgn] at hg1
          exact hg1
        subst this
        obtain ⟨info, hr, _⟩ := (hidx n id1).1 hgn
        exact ⟨info, hr⟩
  have hinjOn : Set.InjOn (fun n : Int => (u.uid.get n).getD "") (Set.Icc 1 (k : Int)) := by
    intro n1 hn1 n2 hn2 hg
    have hne1 := (hd n1).2 hn1
    have hne2 := (hd n2).2 hn2
    cases hg1 : u.uid.get n1 with
    | none => exact absurd hg1 hne1
    | some id1 =>
      cases hg2 : u.uid.get n2 with
      | none => exact absurd hg2 hne2
      | some id2 =>
        have e : id1 = id2 := by
          have hg3 : (u.uid.get n1).getD "" = (u.uid.get n2).getD "" := hg
          rw [hg1, hg2] at hg3
          exact hg3
        subst e
        obtain ⟨i1, hr1, hU1⟩ := (hidx n1 id1).1 hg1
        obtain ⟨i2, hr2, hU2⟩ := (hidx n2 id1).1 hg2
        rw [hr1] at hr2
        cases hr2
        exact hU1.symm.trans hU2
  have hcard : (Set.Icc 1 (k : Int)).ncard = k := by
    rw [← Finset.coe_Icc, Set.ncard_coe_Finset, Int.card_Icc]
    simp
  refine ⟨hinj, hassigned, ?_, ?_⟩
  · rw [himage]
    exact (Set.finite_Icc 1 (k : Int)).image _
  · rw [himage, Set.ncard_image_of_injOn hinjOn, hcard]

/-- C13 (as stated, fails): in the reachable state `signupOverflowState`,
reached by `2^63` successful Signups, the counter is `-2^63`, a negative number
and so not the number of registered accounts, and the numeric id `-2^63` of the
account registered last is assigned although it is not in `1..seq`. -/
theorem C13_assigned_uid_outside_range :
    Reachable signupOverflowState ∧
    signupOverflowState.seq < 0 ∧
    (-9223372036854775808 : Int) ∈ assignedUIDs signupOverflowState ∧
    (-9223372036854775808 : Int) ∉ Set.Icc 1 signupOverflowState.seq ∧
    ((registeredIds signupOverflowState).ncard : Int) ≠ signupOverflowState.seq := by
  obtain ⟨_, _, hseq, _, hrole⟩ := signupOverflowState_facts
  refine ⟨⟨signupHistory (9223372036854775807 + 1), rfl⟩, ?_, ?_, ?_, ?_⟩
  · rw [hseq]; decide
  · exact ⟨userName 9223372036854775807, _, hrole, rfl⟩
  · rw [hseq]
    intro h
    exact absurd h.1 (by decide)
  · rw [hseq]
    intro h
    have := Int.natCast_nonneg (registeredIds signupOverflowState).ncard
    rw [h] at this
    exact absurd this (by decide)

/-- C13 (amended): in every registry state reached from `NewUserManager` by a
history in which at most `2^63 - 1` Signups succeeded: the numeric-id index
maps `n` to `id` if and only if the identifier index holds a record for `id`
whose UID is `n`; no two records share a UID; the assigned UIDs are exactly
`1..seq`; and `seq` is the number of registered accounts. -/
theorem C13_indices_consistent (cs : List Call)
    (hmax : ((okSignups NewUserManager cs : Nat) : Int) ≤ maxInt64) :
    (∀ (n : Int) (id : String), (exec NewUserManager cs).uid.get n = some id ↔
      ∃ info : UserInfo, (exec NewUserManager cs).role.get id = some info ∧ info.UID = n) ∧
    (∀ (id1 id2 : String) (info1 info2 : UserInfo),
      (exec NewUserManager cs).role.get id1 = some info1 →
      (exec NewUserManager cs).role.get id2 = some info2 →
      info1.UID = info2.UID → id1 = id2) ∧
    assignedUIDs (exec NewUserManager cs) = Set.Icc 1 (exec NewUserManager cs).seq ∧
    (registeredIds (exec NewUserManager cs)).Finite ∧
    ((registeredIds (exec NewUserManager cs)).ncard : Int) = (exec NewUserManager cs).seq := by
  have hc := exec_consistent cs NewUserManager 0 consistent_new (by simpa using hmax)
  have hd := exec_uid_domain cs NewUserManager 0 rfl
    (by
      intro n
      constructor
      · intro h; exact absurd rfl h
      · intro h; simp only [Nat.cast_zero] at h; omega)
    (by simpa using hmax)
  simp only [Nat.zero_add] at hc hd
  obtain ⟨h1, h2, h3, h4⟩ := consistent_count _ _ hc hd.2
  refine ⟨hc.2.1, h1, ?_, h3, ?_⟩
  · rw [h2, hc.1]
  · rw [h4, hc.1]

theorem C13_indices_consistent_witness :
    ((okSignups NewUserManager [Call.signup "alice" "pw", Call.signup "bob" "x",
      Call.signup "alice" "again"] : Nat) : Int) ≤ maxInt64 ∧
    (exec NewUserManager [Call.signup "alice" "pw", Call.signup "bob" "x",
      Call.signup "alice" "again"]).seq = 2 ∧
    ((registeredIds (exec NewUserManager [Call.signup "alice" "pw", Call.signup "bob" "x",
      Call.signup "alice" "again"])).ncard : Int) = 2 ∧
    assignedUIDs (exec NewUserManager [Call.signup "alice" "pw", Call.signup "bob" "x",
      Call.signup "alice" "again"]) = Set.Icc 1 2 := by
  have h := C13_indices_consistent [Call.signup "alice" "pw", Call.signup "bob" "x",
    Call.signup "alice" "again"] (by decide)
  have hseq : (exec NewUserManager [Call.signup "alice" "pw", Call.signup "bob" "x",
      Call.signup "alice" "again"]).seq = 2 := by decide
  refine ⟨by decide, hseq, ?_, ?_⟩
  · rw [h.2.2.2.2, hseq]
  · rw [h.2.2.1, hseq]

end simplegamed
